import Mathlib

/-!
# Merkle tree (`src/main.cpp`): shallow embedding and verified properties

The C++ program keeps a pointer tree of `Node`s inside a `MerkleTree` object.
Here a `Node*` is a value of the inductive type `Node` (`Node.null` is
`nullptr`), mutation in place is the return of the updated value, and the
three ways the C++ code can leave its defined behaviour (an exception of the
`std::vector` constructor, a null dereference, `back()` on an empty vector)
are the three constructors of `Fault`.

`SHA256_Init/Update/Final` belong to OpenSSL, not to this program: the digest
is a parameter `sha256 : String → Fin 32 → Fin 256` (a string to the 32 bytes
of `unsigned char hash[SHA256_DIGEST_LENGTH]`).  The hexadecimal rendering
that `calculateHash` performs on it is part of the program and is embedded.

`int` and `size_t` quantities are embedded as mathematical integers: the
arithmetic of the program (`2 * size - 1`, `2 * index + 2`, `i + 1`) is exact
in `int` for vectors of up to `2 ^ 29` items (`int_arithmetic_in_range`), and
wrap-around beyond that is not modelled.  Every theorem about a list of
arbitrary length therefore carries the hypothesis `length ≤ 2 ^ 29`.  The one
place where the conversion between the two types shows on small inputs, the
value `2 * 0 - 1` of `numNodes` for the empty vector, is kept
(`numNodes = -1`).
-/

namespace MerkleWorkshop

/-- The ways an operation can fail to return normally. -/
inductive Fault where
  /-- `std::vector<int> nodeIndices(numNodes)` with a negative `numNodes`
  (converted to a huge `size_t`): the constructor throws. -/
  | lengthError
  /-- A method or field of a null `Node*` is used. -/
  | nullDeref
  /-- `transactions.back()` / `pop_back()` on an empty vector. -/
  | emptyBack
  deriving DecidableEq, Repr

/-- A `Node*`: either `nullptr` or a node with its payload and two child
pointers (`class Node`, lines 48-63). -/
inductive Node where
  | null : Node
  | mk (data : String) (left right : Node) : Node
  deriving DecidableEq, Repr

namespace Node

/-- Is the pointer `nullptr`. -/
def isNull : Node → Bool
  | null => true
  | mk _ _ _ => false

/-- Field `data` (read only through non-null pointers). -/
def data : Node → String
  | null => ""
  | mk d _ _ => d

/-- Field `left`. -/
def left : Node → Node
  | null => null
  | mk _ l _ => l

/-- Field `right`. -/
def right : Node → Node
  | null => null
  | mk _ _ r => r

/-- `Node::isFull`: `(left != nullptr) && (right != nullptr)`. -/
def isFull (n : Node) : Bool :=
  (!n.left.isNull) && (!n.right.isNull)

/-- `Node::isLeaf`: `(left == nullptr) && (right == nullptr)`. -/
def isLeaf (n : Node) : Bool :=
  n.left.isNull && n.right.isNull

end Node

/-- One hexadecimal digit of `"%02x"` (lower case). -/
def hexDigit (n : Nat) : Char :=
  if n < 10 then Char.ofNat (48 + n) else Char.ofNat (87 + n)

/-- The `for` loop of `calculateHash` from index `i` on: `count` more bytes
are written, two characters each, by `sprintf(hashString + i * 2, "%02x", hash[i])`. -/
def hexLoop (hash : Fin 32 → Fin 256) : (count : Nat) → (i : Nat) → List Char
  | 0, _ => []
  | count + 1, i =>
    let b : Nat := if h : i < 32 then (hash ⟨i, h⟩).val else 0
    hexDigit (b / 16) :: hexDigit (b % 16) :: hexLoop hash count (i + 1)

/-- `MerkleTree::calculateHash` (lines 72-85): the digest of `str` rendered as
two lower-case hexadecimal digits per byte, `SHA256_DIGEST_LENGTH = 32` bytes. -/
def calculateHash (sha256 : String → Fin 32 → Fin 256) (str : String) : String :=
  String.mk (hexLoop (sha256 str) 32 0)

/-- The state of a `MerkleTree` object: `Node* root; std::string merkleRoot;`. -/
structure MerkleTree where
  root : Node
  merkleRoot : String
  deriving DecidableEq, Repr

/-- `MerkleTree::calculateMerkleRoot(Node*)` (lines 99-112).  The node is
rewritten in place; the result is the pointer passed in, that is the updated
subtree.  `node->isLeaf()` on `nullptr` is a fault. -/
def calculateMerkleRootNode (sha256 : String → Fin 32 → Fin 256) : Node → Except Fault Node
  | Node.null => Except.error Fault.nullDeref
  | Node.mk d l r =>
    if (Node.mk d l r).isLeaf then
      Except.ok (Node.mk d l r)
    else
      match calculateMerkleRootNode sha256 l with
      | Except.error e => Except.error e
      | Except.ok leftChild =>
        match calculateMerkleRootNode sha256 r with
        | Except.error e => Except.error e
        | Except.ok rightChild =>
          let combinedData := leftChild.data ++ rightChild.data
          Except.ok (Node.mk (calculateHash sha256 combinedData) leftChild rightChild)

/-- `MerkleTree::buildTree` (lines 135-143).  `indices[index]` is read only
for `index < numNodes`, which is the size of `indices` in the one call that
`buildTreeFromVector` makes. -/
def buildTree (indices : List Int) (index numNodes : Nat) : Node :=
  if index < numNodes then
    Node.mk (toString (indices.getD index 0))
      (buildTree indices (2 * index + 1) numNodes)
      (buildTree indices (2 * index + 2) numNodes)
  else
    Node.null
termination_by numNodes - index
decreasing_by all_goals omega

/-- `MerkleTree::addLeafData` (lines 146-159).  The vector is passed by
reference: the result is the vector after the call together with the updated
subtree. -/
def addLeafData (sha256 : String → Fin 32 → Fin 256) :
    List String → Node → Except Fault (List String × Node)
  | transactions, Node.null => Except.ok (transactions, Node.null)
  | transactions, Node.mk d l r =>
    match addLeafData sha256 transactions l with
    | Except.error e => Except.error e
    | Except.ok (transactions1, l1) =>
      let self : Except Fault (List String × String) :=
        if (Node.mk d l r).isLeaf then
          match transactions1.getLast? with
          | none => Except.error Fault.emptyBack
          | some back => Except.ok (transactions1.dropLast, calculateHash sha256 back)
        else
          Except.ok (transactions1, d)
      match self with
      | Except.error e => Except.error e
      | Except.ok (transactions2, d1) =>
        match addLeafData sha256 transactions2 r with
        | Except.error e => Except.error e
        | Except.ok (transactions3, r1) => Except.ok (transactions3, Node.mk d1 l1 r1)

namespace MerkleTree

/-- The constructor `MerkleTree() : root(nullptr), merkleRoot("")`. -/
def new : MerkleTree := { root := Node.null, merkleRoot := "" }

/-- `MerkleTree::buildTreeFromVector` (lines 118-132).  The parameter is a
`const` reference: the result is the state of the object after the call, and
the vector that `addLeafData` has worked on is not handed back. -/
def buildTreeFromVector (sha256 : String → Fin 32 → Fin 256) (t : MerkleTree)
    (transactions : List String) : Except Fault MerkleTree :=
  let numNodes : Int := 2 * (transactions.length : Int) - 1
  if numNodes < 0 then
    Except.error Fault.lengthError
  else
    let nodeIndices : List Int := (List.range numNodes.toNat).map (fun i : Nat => (i : Int) + 1)
    let root := buildTree nodeIndices 0 numNodes.toNat
    match addLeafData sha256 transactions root with
    | Except.error e => Except.error e
    | Except.ok (_, root1) => Except.ok { t with root := root1 }

/-- `MerkleTree::calculateMerkleRoot()` (lines 162-169). -/
def calculateMerkleRoot (sha256 : String → Fin 32 → Fin 256) (t : MerkleTree) :
    Except Fault MerkleTree :=
  if t.root.isNull then
    Except.ok t
  else
    match calculateMerkleRootNode sha256 t.root with
    | Except.error e => Except.error e
    | Except.ok merkleRootNode => Except.ok { root := merkleRootNode, merkleRoot := merkleRootNode.data }

/-- `MerkleTree::getMerkleRoot` (lines 172-174). -/
def getMerkleRoot (t : MerkleTree) : String := t.merkleRoot

/-- `MerkleTree::verifyTransactions` (lines 177-191): the state of the object
after the call and the returned boolean. -/
def verifyTransactions (sha256 : String → Fin 32 → Fin 256) (t : MerkleTree)
    (transactionsToVerify : List String) : Except Fault (MerkleTree × Bool) :=
  match buildTreeFromVector sha256 MerkleTree.new transactionsToVerify with
  | Except.error e => Except.error e
  | Except.ok newTree =>
    match calculateMerkleRoot sha256 newTree with
    | Except.error e => Except.error e
    | Except.ok newTree1 =>
      let newMerkleRoot := newTree1.getMerkleRoot
      if t.merkleRoot = newMerkleRoot then Except.ok (t, true) else Except.ok (t, false)

end MerkleTree

/-- The sequence of `main` (lines 198-208): a fresh `MerkleTree`,
`buildTreeFromVector`, `calculateMerkleRoot`, `getMerkleRoot`. -/
def rootDigest (sha256 : String → Fin 32 → Fin 256) (transactions : List String) :
    Except Fault String :=
  match MerkleTree.buildTreeFromVector sha256 MerkleTree.new transactions with
  | Except.error e => Except.error e
  | Except.ok merkleTree =>
    match MerkleTree.calculateMerkleRoot sha256 merkleTree with
    | Except.error e => Except.error e
    | Except.ok merkleTree1 => Except.ok merkleTree1.getMerkleRoot

/-- The arguments of the calls of `calculateHash` that `addLeafData` makes
(line 154), in the order of the calls. -/
def addLeafDataHashed (sha256 : String → Fin 32 → Fin 256) : List String → Node → List String
  | _, Node.null => []
  | transactions, Node.mk d l r =>
    match addLeafData sha256 transactions l with
    | Except.error _ => addLeafDataHashed sha256 transactions l
    | Except.ok (transactions1, _) =>
      if (Node.mk d l r).isLeaf then
        match transactions1.getLast? with
        | none => addLeafDataHashed sha256 transactions l
        | some back =>
          addLeafDataHashed sha256 transactions l ++ [back]
            ++ addLeafDataHashed sha256 transactions1.dropLast r
      else
        addLeafDataHashed sha256 transactions l ++ addLeafDataHashed sha256 transactions1 r

/-- The arguments of the calls of `calculateHash` that
`calculateMerkleRoot(Node*)` makes (lines 108-109), in the order of the calls. -/
def calculateMerkleRootHashed (sha256 : String → Fin 32 → Fin 256) : Node → List String
  | Node.null => []
  | Node.mk d l r =>
    if (Node.mk d l r).isLeaf then []
    else
      match calculateMerkleRootNode sha256 l, calculateMerkleRootNode sha256 r with
      | Except.ok leftChild, Except.ok rightChild =>
        calculateMerkleRootHashed sha256 l ++ calculateMerkleRootHashed sha256 r
          ++ [leftChild.data ++ rightChild.data]
      | _, _ => calculateMerkleRootHashed sha256 l ++ calculateMerkleRootHashed sha256 r

/-- The strings hashed as items while `rootDigest` runs: the calls of
`calculateHash` made by `addLeafData` inside `buildTreeFromVector`. -/
def itemStrings (sha256 : String → Fin 32 → Fin 256) (transactions : List String) :
    List String :=
  let numNodes : Int := 2 * (transactions.length : Int) - 1
  if numNodes < 0 then
    []
  else
    let nodeIndices : List Int := (List.range numNodes.toNat).map (fun i : Nat => (i : Int) + 1)
    addLeafDataHashed sha256 transactions (buildTree nodeIndices 0 numNodes.toNat)

/-- The strings hashed at nodes with children while `rootDigest` runs: the
calls of `calculateHash` made by `calculateMerkleRoot` on the built tree. -/
def combinedStrings (sha256 : String → Fin 32 → Fin 256) (transactions : List String) :
    List String :=
  match MerkleTree.buildTreeFromVector sha256 MerkleTree.new transactions with
  | Except.error _ => []
  | Except.ok merkleTree => calculateMerkleRootHashed sha256 merkleTree.root

/-- All strings `calculateHash` is applied to while `rootDigest` runs. -/
def hashedStrings (sha256 : String → Fin 32 → Fin 256) (transactions : List String) :
    List String :=
  itemStrings sha256 transactions ++ combinedStrings sha256 transactions

/-- No two different strings of `S` have the same hash. -/
def CollisionFree (sha256 : String → Fin 32 → Fin 256) (S : List String) : Prop :=
  ∀ x ∈ S, ∀ y ∈ S, calculateHash sha256 x = calculateHash sha256 y → x = y

instance (sha256 : String → Fin 32 → Fin 256) (S : List String) :
    Decidable (CollisionFree sha256 S) := by
  unfold CollisionFree
  exact inferInstance

/-- The list `L1` is `L` with one item inserted at some position. -/
def insertedOne (L L1 : List String) : Prop :=
  ∃ pre x post, L = pre ++ post ∧ L1 = pre ++ x :: post

/-- A sample digest function for concrete evaluations: byte `i` is the length
of the input plus the code of its `i`-th character (0 when there is none),
modulo 256. -/
def sampleDigest (str : String) : Fin 32 → Fin 256 :=
  fun i => ⟨(str.length + (str.data.getD i.val (Char.ofNat 0)).toNat) % 256,
    Nat.mod_lt _ (by decide)⟩

/-- A 128-character item that is itself the concatenation of two digests of
`sampleDigest`: the digest of `"txn5"` followed by its own digest. -/
def digestPairItem : String :=
  "787c723904040404040404040404040404040404040404040404040404040404"
    ++ "b7b8b7e3b7b2b3b9b0b4b0b4b0b4b0b4b0b4b0b4b0b4b0b4b0b4b0b4b0b4b0b4"

/-! ## Vocabulary of the properties -/

namespace Node

/-- Number of nodes reachable from a pointer. -/
def size : Node → Nat
  | null => 0
  | mk _ l r => 1 + size l + size r

/-- Number of leaves (nodes without children). -/
def leafCount : Node → Nat
  | null => 0
  | mk d l r => if (mk d l r).isLeaf then 1 else leafCount l + leafCount r

/-- Number of nodes that have at least one child. -/
def internalCount : Node → Nat
  | null => 0
  | mk d l r => if (mk d l r).isLeaf then 0 else 1 + internalCount l + internalCount r

/-- Every node is a leaf or has both children. -/
def leafOrFull : Node → Bool
  | null => true
  | mk d l r => ((mk d l r).isLeaf || (mk d l r).isFull) && leafOrFull l && leafOrFull r

/-- Payloads of the leaves in in-order traversal (left subtree, node, right subtree). -/
def inorderLeafData : Node → List String
  | null => []
  | mk d l r => inorderLeafData l ++ (if (mk d l r).isLeaf then [d] else []) ++ inorderLeafData r

/-- Payloads of all nodes in in-order traversal (what `inorderTraversal` prints). -/
def inorderData : Node → List String
  | null => []
  | mk d l r => inorderData l ++ [d] ++ inorderData r

/-- Every node with two children holds the hash of its children's payloads,
left first. -/
def combined (sha256 : String → Fin 32 → Fin 256) : Node → Prop
  | null => True
  | mk d l r =>
    ((mk d l r).isFull = true → d = calculateHash sha256 (l.data ++ r.data))
      ∧ combined sha256 l ∧ combined sha256 r

/-- The reference recursion of the specification: `root(n) = n.data` if `n` is
a leaf, else `hash(root(n.left) ++ root(n.right))`. -/
def referenceRoot (sha256 : String → Fin 32 → Fin 256) : Node → String
  | null => ""
  | mk d l r =>
    if (mk d l r).isLeaf then d
    else calculateHash sha256 (referenceRoot sha256 l ++ referenceRoot sha256 r)

/-- The node at position `i` of the 0-based heap numbering (the root is at 0,
the children of position `i` are at `2i+1` and `2i+2`), reached from `n` as
root; `null` when there is no such node. -/
def subtreeAt (n : Node) : Nat → Node
  | 0 => n
  | i + 1 => if i % 2 = 0 then (subtreeAt n (i / 2)).left else (subtreeAt n (i / 2)).right
decreasing_by all_goals omega

/-- The second tree has the nodes of the first, and every node of the first
that is not a leaf has kept its payload. -/
def internalKept : Node → Node → Prop
  | null, null => True
  | mk d l r, mk d1 l1 r1 =>
    ((mk d l r).isLeaf = false → d1 = d) ∧ internalKept l l1 ∧ internalKept r r1
  | _, _ => False

/-- The tree is perfect of height `k`: every node above depth `k` has both
children and every node at depth `k` is a leaf. -/
def perfect : Nat → Node → Prop
  | _, null => False
  | 0, mk _ l r => l = null ∧ r = null
  | k + 1, mk _ l r => perfect k l ∧ perfect k r

/-- The depths of the leaves in in-order, the node itself being at depth
`depth`. -/
def leafDepths : Node → Nat → List Nat
  | null, _ => []
  | mk d l r, depth =>
    if (mk d l r).isLeaf then [depth]
    else leafDepths l (depth + 1) ++ leafDepths r (depth + 1)

/-- Two pointers lead to trees with the same arrangement of nodes. -/
def sameShape : Node → Node → Prop
  | null, null => True
  | mk _ l r, mk _ l1 r1 => sameShape l l1 ∧ sameShape r r1
  | _, _ => False

end Node

/-- The textbook balanced Merkle root of a list of `2 ^ k` items, as the claim
words it: `merkle([x]) = hash(x)` and
`merkle(xs ++ ys) = hash(merkle(xs) ++ merkle(ys))` for the two halves `xs`,
`ys` of equal length. -/
def merkle (sha256 : String → Fin 32 → Fin 256) : Nat → List String → String
  | 0, xs => calculateHash sha256 (xs.headD "")
  | k + 1, xs =>
    calculateHash sha256
      (merkle sha256 k (xs.take (2 ^ k)) ++ merkle sha256 k (xs.drop (2 ^ k)))

/-- A character of `0-9` or `a-f`. -/
def isLowerHex (c : Char) : Bool :=
  (decide ('0' ≤ c) && decide (c ≤ '9')) || (decide ('a' ≤ c) && decide (c ≤ 'f'))

/-- A string of exactly 64 lower-case hexadecimal characters. -/
def isDigest (s : String) : Prop :=
  s.length = 64 ∧ ∀ c ∈ s.data, isLowerHex c = true

/-! ## The hash rendering -/

theorem hexDigit_isLowerHex (n : Nat) (h : n < 16) : isLowerHex (hexDigit n) = true := by
  interval_cases n <;> decide

theorem hexLoop_length (hash : Fin 32 → Fin 256) (count i : Nat) :
    (hexLoop hash count i).length = 2 * count := by
  induction count generalizing i with
  | zero => simp [hexLoop]
  | succ c ih => simp [hexLoop, ih]; omega

theorem hexLoop_isLowerHex (hash : Fin 32 → Fin 256) (count i : Nat) :
    ∀ c ∈ hexLoop hash count i, isLowerHex c = true := by
  induction count generalizing i with
  | zero => simp [hexLoop]
  | succ n ih =>
    intro c hc
    simp only [hexLoop, List.mem_cons] at hc
    rcases hc with hc | hc | hc
    · subst hc
      apply hexDigit_isLowerHex
      split <;> omega
    · subst hc
      apply hexDigit_isLowerHex
      omega
    · exact ih _ c hc

theorem hexLoop_getElem? (hash : Fin 32 → Fin 256) (count i k : Nat) (hk : k < count)
    (hi : i + count ≤ 32) :
    (hexLoop hash count i)[2 * k]? =
        some (hexDigit ((if h : i + k < 32 then (hash ⟨i + k, h⟩).val else 0) / 16)) ∧
    (hexLoop hash count i)[2 * k + 1]? =
        some (hexDigit ((if h : i + k < 32 then (hash ⟨i + k, h⟩).val else 0) % 16)) := by
  induction count generalizing i k with
  | zero => omega
  | succ n ih =>
    cases k with
    | zero => simp [hexLoop]
    | succ k =>
      have h1 := ih (i + 1) k (by omega) (by omega)
      have e1 : 2 * (k + 1) = (2 * k + 1) + 1 := by omega
      have e2 : 2 * (k + 1) + 1 = (2 * k + 1 + 1) + 1 := by omega
      have e3 : i + 1 + k = i + (k + 1) := by omega
      rw [e3] at h1
      constructor
      · rw [e1]; simp only [hexLoop, List.getElem?_cons_succ]; exact h1.1
      · rw [e2]; simp only [hexLoop, List.getElem?_cons_succ]; exact h1.2

theorem calculateHash_isDigest (sha256 : String → Fin 32 → Fin 256) (str : String) :
    isDigest (calculateHash sha256 str) := by
  constructor
  · simp [calculateHash, String.length, hexLoop_length]
  · intro c hc
    exact hexLoop_isLowerHex _ _ _ c hc

theorem calculateHash_length (sha256 : String → Fin 32 → Fin 256) (str : String) :
    (calculateHash sha256 str).length = 64 :=
  (calculateHash_isDigest sha256 str).1

/-! ## Shape of the tree allocated by `buildTree` -/

theorem buildTree_lt (indices : List Int) (index numNodes : Nat) (h : index < numNodes) :
    buildTree indices index numNodes =
      Node.mk (toString (indices.getD index 0))
        (buildTree indices (2 * index + 1) numNodes)
        (buildTree indices (2 * index + 2) numNodes) := by
  rw [buildTree]; simp [h]

theorem buildTree_ge (indices : List Int) (index numNodes : Nat) (h : numNodes ≤ index) :
    buildTree indices index numNodes = Node.null := by
  rw [buildTree]; simp [Nat.not_lt.mpr h]

theorem buildTree_isNull (indices : List Int) (index numNodes : Nat) :
    (buildTree indices index numNodes).isNull = decide (numNodes ≤ index) := by
  by_cases h : index < numNodes
  · rw [buildTree_lt _ _ _ h]; simp [Node.isNull, h]
  · rw [buildTree_ge _ _ _ (by omega)]; simp [Node.isNull]; omega

theorem buildTree_leafOrFull (indices : List Int) (numNodes : Nat) (hodd : numNodes % 2 = 1)
    (index : Nat) : (buildTree indices index numNodes).leafOrFull = true := by
  generalize hk : numNodes - index = k
  induction k using Nat.strong_induction_on generalizing index with
  | _ k ih =>
    subst hk
    by_cases hlt : index < numNodes
    · rw [buildTree_lt _ _ _ hlt]
      have h1 := ih (numNodes - (2 * index + 1)) (by omega) (2 * index + 1) rfl
      have h2 := ih (numNodes - (2 * index + 2)) (by omega) (2 * index + 2) rfl
      simp only [Node.leafOrFull, Node.isLeaf, Node.isFull, Node.left, Node.right,
        buildTree_isNull, h1, h2, Bool.and_true]
      by_cases hc : 2 * index + 2 < numNodes
      · have : ¬ numNodes ≤ 2 * index + 1 := by omega
        have : ¬ numNodes ≤ 2 * index + 2 := by omega
        simp [*]
      · have : numNodes ≤ 2 * index + 1 := by omega
        have : numNodes ≤ 2 * index + 2 := by omega
        simp [*]
    · rw [buildTree_ge _ _ _ (by omega)]; rfl

theorem buildTree_size_split (indices : List Int) (numNodes index : Nat) :
    (buildTree indices index numNodes).size =
      (if index < numNodes then 1 else 0)
        + (buildTree indices (2 * index + 1) numNodes).size
        + (buildTree indices (2 * index + 2) numNodes).size := by
  by_cases hlt : index < numNodes
  · rw [buildTree_lt _ _ _ hlt]; simp [Node.size, hlt]
  · rw [buildTree_ge _ _ _ (by omega), buildTree_ge _ (2 * index + 1) _ (by omega),
      buildTree_ge _ (2 * index + 2) _ (by omega)]
    simp [Node.size, hlt]

theorem buildTree_size_level (indices : List Int) (numNodes a len : Nat) :
    (∑ j in Finset.range len, (buildTree indices (a + j) numNodes).size) =
      min len (numNodes - a)
        + ∑ j in Finset.range (2 * len), (buildTree indices (2 * a + 1 + j) numNodes).size := by
  induction len with
  | zero => simp
  | succ n ih =>
    have e : 2 * (n + 1) = 2 * n + 1 + 1 := by omega
    rw [Finset.sum_range_succ, ih, e, Finset.sum_range_succ, Finset.sum_range_succ,
      buildTree_size_split indices numNodes (a + n)]
    have e1 : 2 * (a + n) + 1 = 2 * a + 1 + 2 * n := by omega
    have e2 : 2 * (a + n) + 2 = 2 * a + 1 + (2 * n + 1) := by omega
    rw [e1, e2]
    by_cases hc : a + n < numNodes
    · simp only [hc, if_true]
      have : min (n + 1) (numNodes - a) = min n (numNodes - a) + 1 := by
        rw [Nat.min_def, Nat.min_def]; split <;> split <;> omega
      omega
    · simp only [hc, if_false]
      have : min (n + 1) (numNodes - a) = min n (numNodes - a) := by
        rw [Nat.min_def, Nat.min_def]; split <;> split <;> omega
      omega

theorem buildTree_size_levels (indices : List Int) (numNodes a : Nat) :
    (∑ j in Finset.range (a + 1), (buildTree indices (a + j) numNodes).size) = numNodes - a := by
  generalize hk : numNodes - a = k
  induction k using Nat.strong_induction_on generalizing a with
  | _ k ih =>
    subst hk
    by_cases hlt : a < numNodes
    · rw [buildTree_size_level]
      have e : 2 * (a + 1) = (2 * a + 1) + 1 := by omega
      rw [e, ih (numNodes - (2 * a + 1)) (by omega) (2 * a + 1) rfl]
      rw [Nat.min_def]; split <;> omega
    · have hz : ∀ j ∈ Finset.range (a + 1), (buildTree indices (a + j) numNodes).size = 0 := by
        intro j _
        rw [buildTree_ge _ _ _ (by omega)]; rfl
      rw [Finset.sum_eq_zero hz]; omega

theorem buildTree_size (indices : List Int) (numNodes : Nat) :
    (buildTree indices 0 numNodes).size = numNodes := by
  have h := buildTree_size_levels indices numNodes 0
  simpa using h

theorem Node.size_eq_leaf_add_internal (n : Node) :
    n.size = n.leafCount + n.internalCount := by
  induction n with
  | null => rfl
  | mk d l r ihl ihr =>
    simp only [Node.size, Node.leafCount, Node.internalCount]
    cases l <;> cases r <;>
      simp_all [Node.isLeaf, Node.isNull, Node.left, Node.right, Node.size,
        Node.leafCount, Node.internalCount] <;> omega

theorem Node.eq_null_of_isNull (n : Node) (h : n.isNull = true) : n = Node.null := by
  cases n with
  | null => rfl
  | mk d l r => simp [Node.isNull] at h

theorem Node.leafCount_of_leafOrFull (n : Node) (h : n.leafOrFull = true)
    (hn : n.isNull = false) : n.size + 1 = 2 * n.leafCount := by
  induction n with
  | null => simp [Node.isNull] at hn
  | mk d l r ihl ihr =>
    simp only [Node.leafOrFull, Node.isLeaf, Node.isFull, Node.left, Node.right,
      Bool.and_eq_true, Bool.or_eq_true] at h
    obtain ⟨⟨hshape, hlf⟩, hrf⟩ := h
    cases hln : l.isNull <;> cases hrn : r.isNull <;> simp [hln, hrn] at hshape
    · have h1 := ihl hlf hln
      have h2 := ihr hrf hrn
      simp only [Node.size, Node.leafCount, Node.isLeaf, Node.left, Node.right, hln, hrn]
      simp only [Bool.and_self, Bool.false_eq_true, if_false]
      omega
    · rw [Node.eq_null_of_isNull l hln, Node.eq_null_of_isNull r hrn]
      rfl

/-! ## Trees of the same shape -/

theorem Node.sameShape_refl (n : Node) : Node.sameShape n n := by
  induction n with
  | null => trivial
  | mk d l r ihl ihr => exact ⟨ihl, ihr⟩

theorem Node.sameShape_symm {a b : Node} (h : Node.sameShape a b) : Node.sameShape b a := by
  induction a generalizing b with
  | null => cases b <;> simp_all [Node.sameShape]
  | mk d l r ihl ihr =>
    cases b with
    | null => simp [Node.sameShape] at h
    | mk d1 l1 r1 => exact ⟨ihl h.1, ihr h.2⟩

theorem Node.sameShape_trans {a b c : Node} (h1 : Node.sameShape a b)
    (h2 : Node.sameShape b c) : Node.sameShape a c := by
  induction a generalizing b c with
  | null =>
    cases b <;> cases c <;> simp_all [Node.sameShape]
  | mk d l r ihl ihr =>
    cases b with
    | null => simp [Node.sameShape] at h1
    | mk d1 l1 r1 =>
      cases c with
      | null => simp [Node.sameShape] at h2
      | mk d2 l2 r2 => exact ⟨ihl h1.1 h2.1, ihr h1.2 h2.2⟩

theorem Node.sameShape_isNull {a b : Node} (h : Node.sameShape a b) : a.isNull = b.isNull := by
  cases a <;> cases b <;> simp_all [Node.sameShape, Node.isNull]

theorem Node.sameShape_isLeaf {a b : Node} (h : Node.sameShape a b) : a.isLeaf = b.isLeaf := by
  cases a with
  | null => cases b <;> simp_all [Node.sameShape]
  | mk d l r =>
    cases b with
    | null => simp [Node.sameShape] at h
    | mk d1 l1 r1 =>
      simp only [Node.isLeaf, Node.left, Node.right, Node.sameShape_isNull h.1,
        Node.sameShape_isNull h.2]

theorem Node.sameShape_isFull {a b : Node} (h : Node.sameShape a b) : a.isFull = b.isFull := by
  cases a with
  | null => cases b <;> simp_all [Node.sameShape]
  | mk d l r =>
    cases b with
    | null => simp [Node.sameShape] at h
    | mk d1 l1 r1 =>
      simp only [Node.isFull, Node.left, Node.right, Node.sameShape_isNull h.1,
        Node.sameShape_isNull h.2]

theorem Node.sameShape_size {a b : Node} (h : Node.sameShape a b) : a.size = b.size := by
  induction a generalizing b with
  | null => cases b <;> simp_all [Node.sameShape]
  | mk d l r ihl ihr =>
    cases b with
    | null => simp [Node.sameShape] at h
    | mk d1 l1 r1 => simp only [Node.size, ihl h.1, ihr h.2]

theorem Node.sameShape_leafCount {a b : Node} (h : Node.sameShape a b) :
    a.leafCount = b.leafCount := by
  induction a generalizing b with
  | null => cases b <;> simp_all [Node.sameShape]
  | mk d l r ihl ihr =>
    cases b with
    | null => simp [Node.sameShape] at h
    | mk d1 l1 r1 =>
      have hl := Node.sameShape_isLeaf (a := Node.mk d l r) (b := Node.mk d1 l1 r1) h
      simp only [Node.leafCount, ihl h.1, ihr h.2, hl]

theorem Node.sameShape_internalCount {a b : Node} (h : Node.sameShape a b) :
    a.internalCount = b.internalCount := by
  have h1 := Node.size_eq_leaf_add_internal a
  have h2 := Node.size_eq_leaf_add_internal b
  have h3 := Node.sameShape_size h
  have h4 := Node.sameShape_leafCount h
  omega

theorem Node.sameShape_leafOrFull {a b : Node} (h : Node.sameShape a b) :
    a.leafOrFull = b.leafOrFull := by
  induction a generalizing b with
  | null => cases b <;> simp_all [Node.sameShape]
  | mk d l r ihl ihr =>
    cases b with
    | null => simp [Node.sameShape] at h
    | mk d1 l1 r1 =>
      have hl := Node.sameShape_isLeaf (a := Node.mk d l r) (b := Node.mk d1 l1 r1) h
      have hf := Node.sameShape_isFull (a := Node.mk d l r) (b := Node.mk d1 l1 r1) h
      simp only [Node.leafOrFull, ihl h.1, ihr h.2, hl, hf]

/-! ## `addLeafData` -/

theorem addLeafData_spec (sha256 : String → Fin 32 → Fin 256) (n : Node) :
    ∀ (pre xs : List String), xs.length = n.leafCount →
      ∃ n1, addLeafData sha256 (pre ++ xs.reverse) n = Except.ok (pre, n1)
        ∧ Node.sameShape n n1
        ∧ n1.inorderLeafData = xs.map (calculateHash sha256) := by
  induction n with
  | null =>
    intro pre xs hx
    simp only [Node.leafCount, List.length_eq_zero] at hx
    subst hx
    exact ⟨Node.null, by simp [addLeafData], trivial, rfl⟩
  | mk d l r ihl ihr =>
    intro pre xs hx
    cases hleaf : (Node.mk d l r).isLeaf with
    | true =>
      have hleaf0 := hleaf
      simp only [Node.isLeaf, Node.left, Node.right, Bool.and_eq_true] at hleaf
      have hl := Node.eq_null_of_isNull l hleaf.1
      have hr := Node.eq_null_of_isNull r hleaf.2
      subst hl; subst hr
      simp only [Node.leafCount, hleaf0, if_true] at hx
      obtain ⟨x, rfl⟩ := List.length_eq_one.mp hx
      refine ⟨Node.mk (calculateHash sha256 x) Node.null Node.null, ?_, ?_, ?_⟩
      · simp [addLeafData, hleaf0]
      · exact ⟨trivial, trivial⟩
      · simp [Node.inorderLeafData, Node.isLeaf, Node.left, Node.right, Node.isNull]
    | false =>
      simp only [Node.leafCount, hleaf, Bool.false_eq_true, if_false] at hx
      obtain ⟨l1, hl1, hls, hld⟩ := ihl (pre ++ (xs.drop l.leafCount).reverse)
        (xs.take l.leafCount) (by simp; omega)
      obtain ⟨r1, hr1, hrs, hrd⟩ := ihr pre (xs.drop l.leafCount) (by simp; omega)
      have hsplit : pre ++ xs.reverse
          = pre ++ (xs.drop l.leafCount).reverse ++ (xs.take l.leafCount).reverse := by
        rw [List.append_assoc, ← List.reverse_append, List.take_append_drop]
      have hshape : Node.sameShape (Node.mk d l r) (Node.mk d l1 r1) := ⟨hls, hrs⟩
      refine ⟨Node.mk d l1 r1, ?_, hshape, ?_⟩
      · rw [addLeafData, hsplit, hl1]
        simp only [hleaf, Bool.false_eq_true, if_false, hr1]
      · have hleaf1 := Node.sameShape_isLeaf hshape
        rw [hleaf] at hleaf1
        simp only [Node.inorderLeafData, ← hleaf1, Bool.false_eq_true, if_false, hld, hrd,
          List.append_nil, ← List.map_append, List.take_append_drop]

/-! ## `calculateMerkleRoot(Node*)` -/

theorem calculateMerkleRootNode_spec (sha256 : String → Fin 32 → Fin 256) (n : Node)
    (hfull : n.leafOrFull = true) (hn : n.isNull = false) :
    ∃ n1, calculateMerkleRootNode sha256 n = Except.ok n1
      ∧ Node.sameShape n n1
      ∧ n1.inorderLeafData = n.inorderLeafData
      ∧ Node.combined sha256 n1
      ∧ n1.data = Node.referenceRoot sha256 n := by
  induction n with
  | null => simp [Node.isNull] at hn
  | mk d l r ihl ihr =>
    simp only [Node.leafOrFull, Node.isLeaf, Node.isFull, Node.left, Node.right,
      Bool.and_eq_true, Bool.or_eq_true] at hfull
    obtain ⟨⟨hshape, hlf⟩, hrf⟩ := hfull
    cases hln : l.isNull <;> cases hrn : r.isNull <;> simp [hln, hrn] at hshape
    · obtain ⟨l1, hl1, hls, hld, hlc, hlr⟩ := ihl hlf hln
      obtain ⟨r1, hr1, hrs, hrd, hrc, hrr⟩ := ihr hrf hrn
      have hleaf : (Node.mk d l r).isLeaf = false := by
        simp [Node.isLeaf, Node.left, Node.right, hln]
      have hsh : Node.sameShape (Node.mk d l r)
          (Node.mk (calculateHash sha256 (l1.data ++ r1.data)) l1 r1) := ⟨hls, hrs⟩
      have hleaf1 := Node.sameShape_isLeaf hsh
      rw [hleaf] at hleaf1
      refine ⟨Node.mk (calculateHash sha256 (l1.data ++ r1.data)) l1 r1, ?_, hsh, ?_, ?_, ?_⟩
      · rw [calculateMerkleRootNode]
        simp only [hleaf, Bool.false_eq_true, if_false, hl1, hr1]
      · simp only [Node.inorderLeafData, ← hleaf1, hleaf, Bool.false_eq_true, if_false, hld, hrd]
      · exact ⟨fun _ => rfl, hlc, hrc⟩
      · simp only [Node.data, Node.referenceRoot, hleaf, Bool.false_eq_true, if_false,
          ← hlr, ← hrr]
    · have hl := Node.eq_null_of_isNull l hln
      have hr := Node.eq_null_of_isNull r hrn
      subst hl; subst hr
      refine ⟨Node.mk d Node.null Node.null, ?_, ⟨trivial, trivial⟩, rfl, ?_, ?_⟩
      · simp [calculateMerkleRootNode, Node.isLeaf, Node.left, Node.right, Node.isNull]
      · exact ⟨fun h => by simp [Node.isFull, Node.left, Node.isNull] at h, trivial, trivial⟩
      · simp [Node.data, Node.referenceRoot, Node.isLeaf, Node.left, Node.right, Node.isNull]

/-! ## The public operations on a non-empty vector -/

theorem buildTreeFromVector_spec (sha256 : String → Fin 32 → Fin 256) (t : MerkleTree)
    (L : List String) (hL : L ≠ []) :
    ∃ n1, MerkleTree.buildTreeFromVector sha256 t L = Except.ok { t with root := n1 }
      ∧ addLeafData sha256 L
          (buildTree ((List.range (2 * L.length - 1)).map (fun i : Nat => (i : Int) + 1)) 0
            (2 * L.length - 1)) = Except.ok ([], n1)
      ∧ Node.sameShape
          (buildTree ((List.range (2 * L.length - 1)).map (fun i : Nat => (i : Int) + 1)) 0
            (2 * L.length - 1)) n1
      ∧ n1.inorderLeafData = (L.map (calculateHash sha256)).reverse
      ∧ n1.isNull = false
      ∧ n1.leafOrFull = true
      ∧ n1.size = 2 * L.length - 1
      ∧ n1.leafCount = L.length := by
  have hlen : 0 < L.length := List.length_pos.mpr hL
  have hnum : ¬ (2 * (L.length : Int) - 1 < 0) := by omega
  have htoNat : (2 * (L.length : Int) - 1).toNat = 2 * L.length - 1 := by omega
  generalize hidx : (List.range (2 * L.length - 1)).map (fun i : Nat => (i : Int) + 1) = idx
  have hsize := buildTree_size idx (2 * L.length - 1)
  have hlf := buildTree_leafOrFull idx (2 * L.length - 1) (by omega) 0
  have hnn : (buildTree idx 0 (2 * L.length - 1)).isNull = false := by
    rw [buildTree_isNull]; simp; omega
  have hlc := Node.leafCount_of_leafOrFull _ hlf hnn
  have hlc1 : (buildTree idx 0 (2 * L.length - 1)).leafCount = L.length := by omega
  obtain ⟨n1, h1, hs, hd⟩ := addLeafData_spec sha256 (buildTree idx 0 (2 * L.length - 1)) []
    L.reverse (by simp [hlc1])
  simp only [List.reverse_reverse, List.nil_append] at h1
  refine ⟨n1, ?_, h1, hs, ?_, ?_, ?_, ?_, ?_⟩
  · simp only [MerkleTree.buildTreeFromVector, hnum, if_false, htoNat, hidx, h1]
  · rw [hd, List.map_reverse]
  · rw [← Node.sameShape_isNull hs]; exact hnn
  · rw [← Node.sameShape_leafOrFull hs]; exact hlf
  · rw [← Node.sameShape_size hs]; exact hsize
  · rw [← Node.sameShape_leafCount hs]; exact hlc1

theorem buildTreeFromVector_root (sha256 : String → Fin 32 → Fin 256) (t u : MerkleTree)
    (L : List String) (t1 : MerkleTree)
    (h : MerkleTree.buildTreeFromVector sha256 t L = Except.ok t1) :
    t1 = { t with root := t1.root }
      ∧ MerkleTree.buildTreeFromVector sha256 u L = Except.ok { u with root := t1.root } := by
  simp only [MerkleTree.buildTreeFromVector] at h ⊢
  split at h
  · cases h
  · rename_i hneg
    simp only [hneg, if_false]
    split at h
    · cases h
    · rename_i ts root1 heq
      cases h
      simp [heq]

theorem calculateMerkleRoot_spec (sha256 : String → Fin 32 → Fin 256) (t : MerkleTree)
    (hn : t.root.isNull = false) (hfull : t.root.leafOrFull = true) :
    ∃ n2, calculateMerkleRootNode sha256 t.root = Except.ok n2
      ∧ MerkleTree.calculateMerkleRoot sha256 t = Except.ok { root := n2, merkleRoot := n2.data }
      ∧ Node.sameShape t.root n2
      ∧ n2.inorderLeafData = t.root.inorderLeafData
      ∧ Node.combined sha256 n2
      ∧ n2.data = Node.referenceRoot sha256 t.root := by
  obtain ⟨n2, h2, hs, hd, hc, hr⟩ := calculateMerkleRootNode_spec sha256 t.root hfull hn
  refine ⟨n2, h2, ?_, hs, hd, hc, hr⟩
  simp only [MerkleTree.calculateMerkleRoot, hn, Bool.false_eq_true, if_false, h2]

theorem rootDigest_spec (sha256 : String → Fin 32 → Fin 256) (L : List String) (hL : L ≠ []) :
    ∃ n1 n2, MerkleTree.buildTreeFromVector sha256 MerkleTree.new L
          = Except.ok { MerkleTree.new with root := n1 }
      ∧ MerkleTree.calculateMerkleRoot sha256 { MerkleTree.new with root := n1 }
          = Except.ok { root := n2, merkleRoot := n2.data }
      ∧ rootDigest sha256 L = Except.ok n2.data
      ∧ n1.inorderLeafData = (L.map (calculateHash sha256)).reverse
      ∧ n1.leafCount = L.length
      ∧ n1.leafOrFull = true
      ∧ n1.isNull = false
      ∧ Node.sameShape n1 n2
      ∧ n2.inorderLeafData = n1.inorderLeafData
      ∧ Node.combined sha256 n2 := by
  obtain ⟨n1, hb, _, _, hd, hn, hf, _, hc⟩ := buildTreeFromVector_spec sha256 MerkleTree.new L hL
  obtain ⟨n2, _, hc2, hs2, hd2, hcomb, _⟩ :=
    calculateMerkleRoot_spec sha256 { MerkleTree.new with root := n1 } hn hf
  refine ⟨n1, n2, hb, hc2, ?_, hd, hc, hf, hn, hs2, hd2, hcomb⟩
  simp only [rootDigest, hb, hc2, MerkleTree.getMerkleRoot]

theorem Node.inorderData_isDigest (sha256 : String → Fin 32 → Fin 256) (n : Node)
    (hfull : n.leafOrFull = true) (hc : Node.combined sha256 n)
    (hleaves : ∀ p ∈ n.inorderLeafData, isDigest p) :
    ∀ p ∈ n.inorderData, isDigest p := by
  induction n with
  | null => intro p hp; simp [Node.inorderData] at hp
  | mk d l r ihl ihr =>
    simp only [Node.leafOrFull, Bool.and_eq_true, Bool.or_eq_true] at hfull
    obtain ⟨⟨hshape, hlf⟩, hrf⟩ := hfull
    obtain ⟨hd, hcl, hcr⟩ := hc
    simp only [Node.inorderLeafData, List.mem_append] at hleaves
    intro p hp
    simp only [Node.inorderData, List.mem_append, List.mem_singleton] at hp
    rcases hp with (hp | hp) | hp
    · exact ihl hlf hcl (fun q hq => hleaves q (Or.inl (Or.inl hq))) p hp
    · subst hp
      rcases hshape with hleaf | hfl
      · exact hleaves p (Or.inl (Or.inr (by simp [hleaf])))
      · rw [hd hfl]; exact calculateHash_isDigest _ _
    · exact ihr hrf hcr (fun q hq => hleaves q (Or.inr hq)) p hp

/-! ## Which strings are hashed -/

theorem addLeafDataHashed_spec (sha256 : String → Fin 32 → Fin 256) (n : Node) :
    ∀ (pre xs : List String), xs.length = n.leafCount →
      addLeafDataHashed sha256 (pre ++ xs.reverse) n = xs := by
  induction n with
  | null =>
    intro pre xs hx
    simp only [Node.leafCount, List.length_eq_zero] at hx
    subst hx
    rfl
  | mk d l r ihl ihr =>
    intro pre xs hx
    cases hleaf : (Node.mk d l r).isLeaf with
    | true =>
      have hleaf0 := hleaf
      simp only [Node.isLeaf, Node.left, Node.right, Bool.and_eq_true] at hleaf
      have hl := Node.eq_null_of_isNull l hleaf.1
      have hr := Node.eq_null_of_isNull r hleaf.2
      subst hl; subst hr
      simp only [Node.leafCount, hleaf0, if_true] at hx
      obtain ⟨x, rfl⟩ := List.length_eq_one.mp hx
      simp [addLeafDataHashed, addLeafData, hleaf0]
    | false =>
      simp only [Node.leafCount, hleaf, Bool.false_eq_true, if_false] at hx
      obtain ⟨l1, hl1, _, _⟩ := addLeafData_spec sha256 l (pre ++ (xs.drop l.leafCount).reverse)
        (xs.take l.leafCount) (by simp; omega)
      have h1 := ihl (pre ++ (xs.drop l.leafCount).reverse) (xs.take l.leafCount)
        (by simp; omega)
      have h2 := ihr pre (xs.drop l.leafCount) (by simp; omega)
      have hsplit : pre ++ xs.reverse
          = pre ++ (xs.drop l.leafCount).reverse ++ (xs.take l.leafCount).reverse := by
        rw [List.append_assoc, ← List.reverse_append, List.take_append_drop]
      rw [addLeafDataHashed, hsplit, hl1]
      simp only [hleaf, Bool.false_eq_true, if_false, h1, h2, List.take_append_drop]

theorem calculateMerkleRootHashed_full (sha256 : String → Fin 32 → Fin 256) (d : String)
    (l r : Node) (hl : l.isNull = false) (hlf : l.leafOrFull = true)
    (hr : r.isNull = false) (hrf : r.leafOrFull = true) :
    calculateMerkleRootHashed sha256 (Node.mk d l r) =
      calculateMerkleRootHashed sha256 l ++ calculateMerkleRootHashed sha256 r
        ++ [Node.referenceRoot sha256 l ++ Node.referenceRoot sha256 r]
    ∧ Node.referenceRoot sha256 (Node.mk d l r) =
        calculateHash sha256 (Node.referenceRoot sha256 l ++ Node.referenceRoot sha256 r) := by
  obtain ⟨l1, hl1, _, _, _, hld⟩ := calculateMerkleRootNode_spec sha256 l hlf hl
  obtain ⟨r1, hr1, _, _, _, hrd⟩ := calculateMerkleRootNode_spec sha256 r hrf hr
  have hleaf : (Node.mk d l r).isLeaf = false := by
    simp [Node.isLeaf, Node.left, Node.right, hl]
  constructor
  · rw [calculateMerkleRootHashed]
    simp only [hleaf, Bool.false_eq_true, if_false, hl1, hr1, hld, hrd]
  · simp only [Node.referenceRoot, hleaf, Bool.false_eq_true, if_false]

theorem Node.leafOrFull_cases (d : String) (l r : Node)
    (h : (Node.mk d l r).leafOrFull = true) :
    (l = Node.null ∧ r = Node.null)
      ∨ (l.isNull = false ∧ l.leafOrFull = true ∧ r.isNull = false ∧ r.leafOrFull = true) := by
  simp only [Node.leafOrFull, Node.isLeaf, Node.isFull, Node.left, Node.right,
    Bool.and_eq_true, Bool.or_eq_true] at h
  obtain ⟨⟨hshape, hlf⟩, hrf⟩ := h
  cases hln : l.isNull <;> cases hrn : r.isNull <;> simp [hln, hrn] at hshape
  · exact Or.inr ⟨rfl, hlf, rfl, hrf⟩
  · exact Or.inl ⟨Node.eq_null_of_isNull l hln, Node.eq_null_of_isNull r hrn⟩

theorem Node.referenceRoot_length (sha256 : String → Fin 32 → Fin 256) (n : Node)
    (hn : n.isNull = false) (hleaves : ∀ p ∈ n.inorderLeafData, p.length = 64) :
    (Node.referenceRoot sha256 n).length = 64 := by
  cases n with
  | null => simp [Node.isNull] at hn
  | mk d l r =>
    cases hleaf : (Node.mk d l r).isLeaf with
    | true =>
      simp only [Node.referenceRoot, hleaf, if_true]
      apply hleaves
      simp [Node.inorderLeafData, hleaf]
    | false =>
      simp only [Node.referenceRoot, hleaf, Bool.false_eq_true, if_false]
      exact calculateHash_length _ _

theorem string_append_inj (a b c d : String) (hlen : a.length = c.length)
    (h : a ++ b = c ++ d) : a = c ∧ b = d := by
  have h1 : (a ++ b).data = (c ++ d).data := by rw [h]
  simp only [String.data_append] at h1
  have h2 := List.append_inj h1 hlen
  exact ⟨String.ext h2.1, String.ext h2.2⟩

/-- Equal roots of two trees of the same shape force equal leaf payloads, as
long as the strings hashed at the inner nodes do not collide. -/
theorem Node.referenceRoot_inj_sameShape (sha256 : String → Fin 32 → Fin 256)
    (S : List String) (hcf : CollisionFree sha256 S) (n : Node) :
    ∀ m : Node, n.leafOrFull = true → m.leafOrFull = true → Node.sameShape n m →
      (∀ p ∈ n.inorderLeafData, p.length = 64) →
      (∀ p ∈ m.inorderLeafData, p.length = 64) →
      (∀ s ∈ calculateMerkleRootHashed sha256 n, s ∈ S) →
      (∀ s ∈ calculateMerkleRootHashed sha256 m, s ∈ S) →
      Node.referenceRoot sha256 n = Node.referenceRoot sha256 m →
      n.inorderLeafData = m.inorderLeafData := by
  induction n with
  | null =>
    intro m _ _ hs _ _ _ _ _
    cases m with
    | null => rfl
    | mk e l2 r2 => simp [Node.sameShape] at hs
  | mk d l r ihl ihr =>
    intro m hnf hmf hs hnl hml hnS hmS hroot
    cases m with
    | null => simp [Node.sameShape] at hs
    | mk e l2 r2 =>
      rcases Node.leafOrFull_cases d l r hnf with ⟨hl, hr⟩ | ⟨hln, hlf, hrn, hrf⟩
      · subst hl; subst hr
        have h1 := Node.sameShape_isNull hs.1
        have h2 := Node.sameShape_isNull hs.2
        have e1 := Node.eq_null_of_isNull l2 (by rw [← h1]; rfl)
        have e2 := Node.eq_null_of_isNull r2 (by rw [← h2]; rfl)
        subst e1; subst e2
        simp only [Node.referenceRoot, Node.isLeaf, Node.left, Node.right, Node.isNull,
          Bool.and_self, if_true] at hroot
        simp [Node.inorderLeafData, hroot]
      · have hl2n : l2.isNull = false := by rw [← Node.sameShape_isNull hs.1]; exact hln
        have hr2n : r2.isNull = false := by rw [← Node.sameShape_isNull hs.2]; exact hrn
        have hl2f : l2.leafOrFull = true := by rw [← Node.sameShape_leafOrFull hs.1]; exact hlf
        have hr2f : r2.leafOrFull = true := by rw [← Node.sameShape_leafOrFull hs.2]; exact hrf
        obtain ⟨hh1, hr1⟩ := calculateMerkleRootHashed_full sha256 d l r hln hlf hrn hrf
        obtain ⟨hh2, hr2⟩ := calculateMerkleRootHashed_full sha256 e l2 r2 hl2n hl2f hr2n hr2f
        have hleaf1 : (Node.mk d l r).isLeaf = false := by
          simp [Node.isLeaf, Node.left, Node.right, hln]
        have hleaf2 : (Node.mk e l2 r2).isLeaf = false := by
          simp [Node.isLeaf, Node.left, Node.right, hl2n]
        simp only [Node.inorderLeafData, hleaf1, hleaf2, Bool.false_eq_true, if_false,
          List.append_nil, List.mem_append] at hnl hml ⊢
        rw [hh1] at hnS
        rw [hh2] at hmS
        simp only [List.mem_append, List.mem_singleton] at hnS hmS
        rw [hr1, hr2] at hroot
        have hcat := hcf _ (hnS _ (Or.inr rfl)) _ (hmS _ (Or.inr rfl)) hroot
        have hlen1 := Node.referenceRoot_length sha256 l hln (fun p hp => hnl p (Or.inl hp))
        have hlen2 := Node.referenceRoot_length sha256 l2 hl2n (fun p hp => hml p (Or.inl hp))
        obtain ⟨ha, hb⟩ := string_append_inj _ _ _ _ (hlen1.trans hlen2.symm) hcat
        rw [ihl l2 hlf hl2f hs.1 (fun p hp => hnl p (Or.inl hp)) (fun p hp => hml p (Or.inl hp))
            (fun s hs => hnS s (Or.inl (Or.inl hs))) (fun s hs => hmS s (Or.inl (Or.inl hs))) ha,
          ihr r2 hrf hr2f hs.2 (fun p hp => hnl p (Or.inr hp)) (fun p hp => hml p (Or.inr hp))
            (fun s hs => hnS s (Or.inl (Or.inr hs))) (fun s hs => hmS s (Or.inl (Or.inr hs))) hb]

/-- Equal roots force equal shapes when, in addition, no hashed item is one of
the strings hashed at an inner node. -/
theorem Node.referenceRoot_sameShape (sha256 : String → Fin 32 → Fin 256)
    (S I : List String) (hcf : CollisionFree sha256 S) (n : Node) :
    ∀ m : Node, n.leafOrFull = true → m.leafOrFull = true →
      n.isNull = false → m.isNull = false →
      (∀ p ∈ n.inorderLeafData, ∃ x ∈ S, x ∉ I ∧ p = calculateHash sha256 x) →
      (∀ p ∈ m.inorderLeafData, ∃ x ∈ S, x ∉ I ∧ p = calculateHash sha256 x) →
      (∀ s ∈ calculateMerkleRootHashed sha256 n, s ∈ S ∧ s ∈ I) →
      (∀ s ∈ calculateMerkleRootHashed sha256 m, s ∈ S ∧ s ∈ I) →
      Node.referenceRoot sha256 n = Node.referenceRoot sha256 m →
      Node.sameShape n m := by
  induction n with
  | null => intro m _ _ hn; simp [Node.isNull] at hn
  | mk d l r ihl ihr =>
    intro m hnf hmf _ hmn hnl hml hnS hmS hroot
    cases m with
    | null => simp [Node.isNull] at hmn
    | mk e l2 r2 =>
      have hlen : ∀ k : Node, (∀ p ∈ k.inorderLeafData,
          ∃ x ∈ S, x ∉ I ∧ p = calculateHash sha256 x) →
          ∀ p ∈ k.inorderLeafData, p.length = 64 := by
        intro k hk p hp
        obtain ⟨x, _, _, rfl⟩ := hk p hp
        exact calculateHash_length _ _
      rcases Node.leafOrFull_cases d l r hnf with ⟨hl, hr⟩ | ⟨hln, hlf, hrn, hrf⟩
      · subst hl; subst hr
        rcases Node.leafOrFull_cases e l2 r2 hmf with ⟨hl2, hr2⟩ | ⟨hl2n, hl2f, hr2n, hr2f⟩
        · subst hl2; subst hr2
          exact ⟨trivial, trivial⟩
        · exfalso
          obtain ⟨hh2, hr2⟩ := calculateMerkleRootHashed_full sha256 e l2 r2 hl2n hl2f hr2n hr2f
          obtain ⟨x, hxS, hxI, hx⟩ := hnl d (by simp [Node.inorderLeafData, Node.isLeaf,
            Node.left, Node.right, Node.isNull])
          have hc := hmS (Node.referenceRoot sha256 l2 ++ Node.referenceRoot sha256 r2)
            (by rw [hh2]; simp)
          rw [hr2] at hroot
          simp only [Node.referenceRoot, Node.isLeaf, Node.left, Node.right, Node.isNull,
            Bool.and_self, if_true] at hroot
          rw [hx] at hroot
          have := hcf x hxS _ hc.1 hroot
          rw [this] at hxI
          exact hxI hc.2
      · obtain ⟨hh1, hr1⟩ := calculateMerkleRootHashed_full sha256 d l r hln hlf hrn hrf
        have hleaf1 : (Node.mk d l r).isLeaf = false := by
          simp [Node.isLeaf, Node.left, Node.right, hln]
        rcases Node.leafOrFull_cases e l2 r2 hmf with ⟨hl2, hr2⟩ | ⟨hl2n, hl2f, hr2n, hr2f⟩
        · exfalso
          subst hl2; subst hr2
          obtain ⟨x, hxS, hxI, hx⟩ := hml e (by simp [Node.inorderLeafData, Node.isLeaf,
            Node.left, Node.right, Node.isNull])
          have hc := hnS (Node.referenceRoot sha256 l ++ Node.referenceRoot sha256 r)
            (by rw [hh1]; simp)
          rw [hr1] at hroot
          simp only [Node.referenceRoot, Node.isLeaf, Node.left, Node.right, Node.isNull,
            Bool.and_self, if_true] at hroot
          rw [hx] at hroot
          have := hcf x hxS _ hc.1 hroot.symm
          rw [this] at hxI
          exact hxI hc.2
        · obtain ⟨hh2, hr2⟩ := calculateMerkleRootHashed_full sha256 e l2 r2 hl2n hl2f hr2n hr2f
          have hleaf2 : (Node.mk e l2 r2).isLeaf = false := by
            simp [Node.isLeaf, Node.left, Node.right, hl2n]
          simp only [Node.inorderLeafData, hleaf1, hleaf2, Bool.false_eq_true, if_false,
            List.append_nil, List.mem_append] at hnl hml
          rw [hh1] at hnS
          rw [hh2] at hmS
          simp only [List.mem_append, List.mem_singleton] at hnS hmS
          rw [hr1, hr2] at hroot
          have hcat := hcf _ (hnS _ (Or.inr rfl)).1 _ (hmS _ (Or.inr rfl)).1 hroot
          have hlen1 := Node.referenceRoot_length sha256 l hln
            (hlen l (fun p hp => hnl p (Or.inl hp)))
          have hlen2 := Node.referenceRoot_length sha256 l2 hl2n
            (hlen l2 (fun p hp => hml p (Or.inl hp)))
          obtain ⟨ha, hb⟩ := string_append_inj _ _ _ _ (hlen1.trans hlen2.symm) hcat
          exact ⟨ihl l2 hlf hl2f hln hl2n (fun p hp => hnl p (Or.inl hp))
              (fun p hp => hml p (Or.inl hp)) (fun s hs => hnS s (Or.inl (Or.inl hs)))
              (fun s hs => hmS s (Or.inl (Or.inl hs))) ha,
            ihr r2 hrf hr2f hrn hr2n (fun p hp => hnl p (Or.inr hp))
              (fun p hp => hml p (Or.inr hp)) (fun s hs => hnS s (Or.inl (Or.inr hs)))
              (fun s hs => hmS s (Or.inl (Or.inr hs))) hb⟩

theorem hashedStrings_spec (sha256 : String → Fin 32 → Fin 256) (L : List String)
    (hL : L ≠ []) :
    ∃ n1, rootDigest sha256 L = Except.ok (Node.referenceRoot sha256 n1)
      ∧ itemStrings sha256 L = L.reverse
      ∧ combinedStrings sha256 L = calculateMerkleRootHashed sha256 n1
      ∧ Node.sameShape
          (buildTree ((List.range (2 * L.length - 1)).map (fun i : Nat => (i : Int) + 1)) 0
            (2 * L.length - 1)) n1
      ∧ n1.inorderLeafData = (L.map (calculateHash sha256)).reverse
      ∧ n1.leafCount = L.length
      ∧ n1.leafOrFull = true
      ∧ n1.isNull = false := by
  obtain ⟨n1, hb, _, hs, hd, hn, hf, _, hc⟩ :=
    buildTreeFromVector_spec sha256 MerkleTree.new L hL
  obtain ⟨n2, _, hc2, _, _, _, href⟩ :=
    calculateMerkleRoot_spec sha256 { MerkleTree.new with root := n1 } hn hf
  have hlen : 0 < L.length := List.length_pos.mpr hL
  have hnum : ¬ (2 * (L.length : Int) - 1 < 0) := by omega
  have htoNat : (2 * (L.length : Int) - 1).toNat = 2 * L.length - 1 := by omega
  refine ⟨n1, ?_, ?_, ?_, hs, hd, hc, hf, hn⟩
  · simp only [rootDigest, hb, hc2, MerkleTree.getMerkleRoot, href]
  · simp only [itemStrings, hnum, if_false, htoNat]
    have h := addLeafDataHashed_spec sha256
      (buildTree ((List.range (2 * L.length - 1)).map (fun i : Nat => (i : Int) + 1)) 0
        (2 * L.length - 1)) [] L.reverse
      (by rw [Node.sameShape_leafCount hs, hc, List.length_reverse])
    simpa using h
  · simp only [combinedStrings, hb]

theorem map_calculateHash_inj (sha256 : String → Fin 32 → Fin 256) (S : List String)
    (hcf : CollisionFree sha256 S) (L : List String) :
    ∀ L1 : List String, (∀ x ∈ L, x ∈ S) → (∀ x ∈ L1, x ∈ S) →
      L.map (calculateHash sha256) = L1.map (calculateHash sha256) → L = L1 := by
  induction L with
  | nil =>
    intro L1 _ _ h
    cases L1 with
    | nil => rfl
    | cons y ys => simp at h
  | cons x xs ih =>
    intro L1 hS hS1 h
    cases L1 with
    | nil => simp at h
    | cons y ys =>
      simp only [List.map_cons, List.cons.injEq] at h
      have hxy := hcf x (hS x (by simp)) y (hS1 y (by simp)) h.1
      rw [hxy, ih ys (fun z hz => hS z (by simp [hz])) (fun z hz => hS1 z (by simp [hz])) h.2]

theorem rootDigest_singleton (sha256 : String → Fin 32 → Fin 256) (x : String) :
    rootDigest sha256 [x] = Except.ok (calculateHash sha256 x)
      ∧ hashedStrings sha256 [x] = [x] := by
  constructor
  · simp [rootDigest, MerkleTree.buildTreeFromVector, MerkleTree.new, buildTree, addLeafData,
      MerkleTree.calculateMerkleRoot, calculateMerkleRootNode, MerkleTree.getMerkleRoot,
      Node.isLeaf, Node.left, Node.right, Node.isNull, Node.data]
  · simp [hashedStrings, itemStrings, combinedStrings, MerkleTree.buildTreeFromVector,
      MerkleTree.new, buildTree, addLeafData, addLeafDataHashed, calculateMerkleRootHashed,
      Node.isLeaf, Node.left, Node.right, Node.isNull]

theorem rootDigest_pair (sha256 : String → Fin 32 → Fin 256) (a b : String) :
    rootDigest sha256 [a, b]
        = Except.ok (calculateHash sha256 (calculateHash sha256 b ++ calculateHash sha256 a))
      ∧ itemStrings sha256 [a, b] = [b, a]
      ∧ combinedStrings sha256 [a, b] = [calculateHash sha256 b ++ calculateHash sha256 a] := by
  refine ⟨?_, ?_, ?_⟩
  · simp [rootDigest, MerkleTree.buildTreeFromVector, MerkleTree.new, buildTree, addLeafData,
      MerkleTree.calculateMerkleRoot, calculateMerkleRootNode, MerkleTree.getMerkleRoot,
      Node.isLeaf, Node.left, Node.right, Node.isNull, Node.data]
  · simp [itemStrings, buildTree, addLeafData, addLeafDataHashed,
      Node.isLeaf, Node.left, Node.right, Node.isNull]
  · simp [combinedStrings, MerkleTree.buildTreeFromVector,
      MerkleTree.new, buildTree, addLeafData, calculateMerkleRootHashed, calculateMerkleRootNode,
      Node.isLeaf, Node.left, Node.right, Node.isNull, Node.data]

/-- For at most `2 ^ 29` items every `int` the program computes is below
`2 ^ 31`: the node count `2N-1`, the values `i + 1` stored in `nodeIndices`,
and both child indices of every position `index` that `buildTree` reaches. -/
theorem int_arithmetic_in_range (L : List String) (hbound : L.length ≤ 2 ^ 29)
    (index : Nat) (hindex : index < 2 * L.length - 1) :
    2 * (L.length : Int) - 1 < 2 ^ 31
      ∧ (index : Int) + 1 < 2 ^ 31
      ∧ 2 * (index : Int) + 1 < 2 ^ 31
      ∧ 2 * (index : Int) + 2 < 2 ^ 31
      ∧ (buildTree ((List.range (2 * L.length - 1)).map (fun i : Nat => (i : Int) + 1)) 0
          (2 * L.length - 1)).size < 2 ^ 31 := by
  have h29 : (2 : Nat) ^ 29 = 536870912 := by norm_num
  have h31 : (2 : Int) ^ 31 = 2147483648 := by norm_num
  have h31n : (2 : Nat) ^ 31 = 2147483648 := by norm_num
  rw [buildTree_size, h31, h31n]
  omega

/-! ## The claims -/

set_option maxRecDepth 100000

/-- C1 (verification completeness): for a non-empty list `L`, building a tree
from `L`, computing its root and then asking that tree to verify `L` returns
`true`.
The lists are of at most `2 ^ 29` items, the range in which the `int`
arithmetic of the program is exact. -/
theorem verifyTransactions_complete (sha256 : String → Fin 32 → Fin 256) (t : MerkleTree)
    (L : List String) (hL : L ≠ []) (hbound : L.length ≤ 2 ^ 29) :
    ∃ t1 t2, MerkleTree.buildTreeFromVector sha256 t L = Except.ok t1
      ∧ MerkleTree.calculateMerkleRoot sha256 t1 = Except.ok t2
      ∧ MerkleTree.verifyTransactions sha256 t2 L = Except.ok (t2, true) := by
  obtain ⟨n1, hb, _, _, _, hn, hf, _, _⟩ := buildTreeFromVector_spec sha256 t L hL
  obtain ⟨n2, _, hc2, _⟩ := calculateMerkleRoot_spec sha256 { t with root := n1 } hn hf
  refine ⟨_, _, hb, hc2, ?_⟩
  have hb1 := (buildTreeFromVector_root sha256 t MerkleTree.new L _ hb).2
  obtain ⟨m2, _, hc3, _⟩ :=
    calculateMerkleRoot_spec sha256 { MerkleTree.new with root := n1 } hn hf
  have hm : m2 = n2 := by
    have h1 := hc2
    have h2 := hc3
    simp only [MerkleTree.calculateMerkleRoot, hn, Bool.false_eq_true, if_false] at h1 h2
    split at h1
    · cases h1
    · rename_i r1 hr1
      rw [hr1] at h2
      simp only [Except.ok.injEq, MerkleTree.mk.injEq] at h1 h2
      rw [← h1.1, ← h2.1]
  subst hm
  simp only [MerkleTree.verifyTransactions, hb1, hc3, MerkleTree.getMerkleRoot, if_true]

/-- The completeness statement at the list of `main`. -/
theorem verifyTransactions_complete_witness :
    ["txn1", "txn2", "txn3", "txn4"] ≠ ([] : List String)
      ∧ ["txn1", "txn2", "txn3", "txn4"].length ≤ 2 ^ 29
      ∧ ∃ t1 t2, MerkleTree.buildTreeFromVector sampleDigest MerkleTree.new
            ["txn1", "txn2", "txn3", "txn4"] = Except.ok t1
          ∧ MerkleTree.calculateMerkleRoot sampleDigest t1 = Except.ok t2
          ∧ MerkleTree.verifyTransactions sampleDigest t2 ["txn1", "txn2", "txn3", "txn4"]
              = Except.ok (t2, true) :=
  ⟨by decide, by decide, verifyTransactions_complete sampleDigest MerkleTree.new
    ["txn1", "txn2", "txn3", "txn4"] (by decide) (by decide)⟩

/-- C2: for every tree state and every non-empty candidate list, the fresh
build-and-compute of the candidate yields a root digest `r`, and
`verifyTransactions` returns `true` exactly when the stored digest equals `r`
as a string, `false` otherwise.
The lists are of at most `2 ^ 29` items, the range in which the `int`
arithmetic of the program is exact. -/
theorem verifyTransactions_iff (sha256 : String → Fin 32 → Fin 256) (t : MerkleTree)
    (C : List String) (hC : C ≠ []) (hbound : C.length ≤ 2 ^ 29) :
    ∃ r b, rootDigest sha256 C = Except.ok r
      ∧ MerkleTree.verifyTransactions sha256 t C = Except.ok (t, b)
      ∧ (b = true ↔ t.merkleRoot = r)
      ∧ (b = false ↔ t.merkleRoot ≠ r) := by
  obtain ⟨n1, n2, hb, hc, hr, _⟩ := rootDigest_spec sha256 C hC
  by_cases heq : t.merkleRoot = n2.data
  · refine ⟨n2.data, true, hr, ?_, by simp [heq], by simp [heq]⟩
    simp only [MerkleTree.verifyTransactions, hb, hc, MerkleTree.getMerkleRoot, heq, if_true]
  · refine ⟨n2.data, false, hr, ?_, by simp [heq], by simp [heq]⟩
    simp only [MerkleTree.verifyTransactions, hb, hc, MerkleTree.getMerkleRoot, heq, if_false]

/-- The verification criterion at a three-item candidate and a fresh tree. -/
theorem verifyTransactions_iff_witness :
    ["a", "b", "c"] ≠ ([] : List String) ∧ ["a", "b", "c"].length ≤ 2 ^ 29
      ∧ ∃ r b, rootDigest sampleDigest ["a", "b", "c"] = Except.ok r
          ∧ MerkleTree.verifyTransactions sampleDigest MerkleTree.new ["a", "b", "c"]
              = Except.ok (MerkleTree.new, b)
          ∧ (b = true ↔ MerkleTree.new.merkleRoot = r)
          ∧ (b = false ↔ MerkleTree.new.merkleRoot ≠ r) :=
  ⟨by decide, by decide,
    verifyTransactions_iff sampleDigest MerkleTree.new ["a", "b", "c"] (by decide) (by decide)⟩

/-- C3: for a non-empty list, after `buildTreeFromVector` and
`calculateMerkleRoot` every node with two children holds the hash of its left
child's payload followed by its right child's payload, the leaves still hold
the hashes of their items (the same payloads as before the computation),
`getMerkleRoot` returns the payload of the root node, and that digest is the
reference recursion evaluated on the built tree.
The lists are of at most `2 ^ 29` items, the range in which the `int`
arithmetic of the program is exact. -/
theorem calculateMerkleRoot_correct (sha256 : String → Fin 32 → Fin 256) (t : MerkleTree)
    (L : List String) (hL : L ≠ []) (hbound : L.length ≤ 2 ^ 29) :
    ∃ t1 t2, MerkleTree.buildTreeFromVector sha256 t L = Except.ok t1
      ∧ MerkleTree.calculateMerkleRoot sha256 t1 = Except.ok t2
      ∧ Node.combined sha256 t2.root
      ∧ Node.sameShape t1.root t2.root
      ∧ t2.root.inorderLeafData = t1.root.inorderLeafData
      ∧ t2.root.inorderLeafData = (L.map (calculateHash sha256)).reverse
      ∧ t2.getMerkleRoot = t2.root.data
      ∧ t2.getMerkleRoot = Node.referenceRoot sha256 t1.root := by
  obtain ⟨n1, hb, _, _, hd, hn, hf, _, _⟩ := buildTreeFromVector_spec sha256 t L hL
  obtain ⟨n2, _, hc2, hs, hd2, hcomb, href⟩ :=
    calculateMerkleRoot_spec sha256 { t with root := n1 } hn hf
  exact ⟨_, _, hb, hc2, hcomb, hs, hd2, hd2.trans hd, rfl, href⟩

/-- The root computation statement at a three-item list. -/
theorem calculateMerkleRoot_correct_witness :
    ["a", "b", "c"] ≠ ([] : List String) ∧ ["a", "b", "c"].length ≤ 2 ^ 29
      ∧ ∃ t1 t2, MerkleTree.buildTreeFromVector sampleDigest MerkleTree.new ["a", "b", "c"]
            = Except.ok t1
          ∧ MerkleTree.calculateMerkleRoot sampleDigest t1 = Except.ok t2
          ∧ Node.combined sampleDigest t2.root
          ∧ Node.sameShape t1.root t2.root
          ∧ t2.root.inorderLeafData = t1.root.inorderLeafData
          ∧ t2.root.inorderLeafData = (["a", "b", "c"].map (calculateHash sampleDigest)).reverse
          ∧ t2.getMerkleRoot = t2.root.data
          ∧ t2.getMerkleRoot = Node.referenceRoot sampleDigest t1.root :=
  ⟨by decide, by decide, calculateMerkleRoot_correct sampleDigest MerkleTree.new ["a", "b", "c"]
    (by decide) (by decide)⟩

/-- C4 (leaf assignment order): for a non-empty list `L` of length `N`, after
`buildTreeFromVector` the leaf payloads read in in-order are the hashes of `L`
reversed: the `k`-th leaf visited holds `hash(L[N-1-k])`, and the first leaf
visited holds the hash of the last item.
The lists are of at most `2 ^ 29` items, the range in which the `int`
arithmetic of the program is exact. -/
theorem addLeafData_reverse_order (sha256 : String → Fin 32 → Fin 256) (t : MerkleTree)
    (L : List String) (hL : L ≠ []) (hbound : L.length ≤ 2 ^ 29) :
    ∃ t1, MerkleTree.buildTreeFromVector sha256 t L = Except.ok t1
      ∧ t1.root.inorderLeafData = (L.map (calculateHash sha256)).reverse
      ∧ (∀ k, k < L.length →
          t1.root.inorderLeafData[k]? = (L[L.length - 1 - k]?).map (calculateHash sha256))
      ∧ t1.root.inorderLeafData.head? = some (calculateHash sha256 (L.getLast hL)) := by
  obtain ⟨n1, hb, _, _, hd, _⟩ := buildTreeFromVector_spec sha256 t L hL
  refine ⟨_, hb, hd, ?_, ?_⟩
  · intro k hk
    show n1.inorderLeafData[k]? = _
    rw [hd, List.getElem?_reverse (by simpa using hk)]
    simp
  · show n1.inorderLeafData.head? = _
    rw [hd, List.head?_reverse, List.getLast?_map, List.getLast?_eq_getLast L hL]
    rfl

/-- The leaf order statement at a three-item list. -/
theorem addLeafData_reverse_order_witness :
    ["a", "b", "c"] ≠ ([] : List String) ∧ ["a", "b", "c"].length ≤ 2 ^ 29
      ∧ ∃ t1, MerkleTree.buildTreeFromVector sampleDigest MerkleTree.new ["a", "b", "c"]
            = Except.ok t1
          ∧ t1.root.inorderLeafData = (["a", "b", "c"].map (calculateHash sampleDigest)).reverse
          ∧ (∀ k, k < ["a", "b", "c"].length →
              t1.root.inorderLeafData[k]?
                = (["a", "b", "c"][["a", "b", "c"].length - 1 - k]?).map
                    (calculateHash sampleDigest))
          ∧ t1.root.inorderLeafData.head?
              = some (calculateHash sampleDigest
                  (["a", "b", "c"].getLast (by decide))) :=
  ⟨by decide, by decide, addLeafData_reverse_order sampleDigest MerkleTree.new ["a", "b", "c"]
    (by decide) (by decide)⟩

/-- C5 (leaf count invariant): for a list of `N ≥ 1` items the tree produced by
`buildTreeFromVector` has `2N-1` nodes, of which `N` are leaves and `N-1` are
internal.
The lists are of at most `2 ^ 29` items, the range in which the `int`
arithmetic of the program is exact. -/
theorem buildTreeFromVector_counts (sha256 : String → Fin 32 → Fin 256) (t : MerkleTree)
    (L : List String) (hL : 1 ≤ L.length) (hbound : L.length ≤ 2 ^ 29) :
    ∃ t1, MerkleTree.buildTreeFromVector sha256 t L = Except.ok t1
      ∧ t1.root.size = 2 * L.length - 1
      ∧ t1.root.leafCount = L.length
      ∧ t1.root.internalCount = L.length - 1 := by
  have hne : L ≠ [] := List.length_pos.mp hL
  obtain ⟨n1, hb, _, _, _, _, _, hsz, hlc⟩ := buildTreeFromVector_spec sha256 t L hne
  refine ⟨_, hb, hsz, hlc, ?_⟩
  have h := Node.size_eq_leaf_add_internal n1
  show n1.internalCount = _
  omega

/-- The node counts at a three-item list: 5 nodes, 3 leaves, 2 internal. -/
theorem buildTreeFromVector_counts_witness :
    1 ≤ ["a", "b", "c"].length ∧ ["a", "b", "c"].length ≤ 2 ^ 29
      ∧ ∃ t1, MerkleTree.buildTreeFromVector sampleDigest MerkleTree.new ["a", "b", "c"]
            = Except.ok t1
          ∧ t1.root.size = 2 * ["a", "b", "c"].length - 1
          ∧ t1.root.leafCount = ["a", "b", "c"].length
          ∧ t1.root.internalCount = ["a", "b", "c"].length - 1 :=
  ⟨by decide, by decide, buildTreeFromVector_counts sampleDigest MerkleTree.new ["a", "b", "c"]
    (by decide) (by decide)⟩

/-- C6 (node shape invariant): for a list of `N ≥ 1` items every node of the
tree produced by `buildTreeFromVector` is a leaf or has both children, and
`calculateMerkleRoot(Node*)` on it returns normally: it never uses a null
child.
The lists are of at most `2 ^ 29` items, the range in which the `int`
arithmetic of the program is exact. -/
theorem buildTreeFromVector_leafOrFull (sha256 : String → Fin 32 → Fin 256) (t : MerkleTree)
    (L : List String) (hL : 1 ≤ L.length) (hbound : L.length ≤ 2 ^ 29) :
    ∃ t1, MerkleTree.buildTreeFromVector sha256 t L = Except.ok t1
      ∧ t1.root.leafOrFull = true
      ∧ (∃ n2, calculateMerkleRootNode sha256 t1.root = Except.ok n2)
      ∧ (∃ t2, MerkleTree.calculateMerkleRoot sha256 t1 = Except.ok t2) := by
  have hne : L ≠ [] := List.length_pos.mp hL
  obtain ⟨n1, hb, _, _, _, hn, hf, _, _⟩ := buildTreeFromVector_spec sha256 t L hne
  obtain ⟨n2, h2, hc2, _⟩ := calculateMerkleRoot_spec sha256 { t with root := n1 } hn hf
  exact ⟨_, hb, hf, ⟨n2, h2⟩, ⟨_, hc2⟩⟩

/-- The shape invariant at a three-item list. -/
theorem buildTreeFromVector_leafOrFull_witness :
    1 ≤ ["a", "b", "c"].length ∧ ["a", "b", "c"].length ≤ 2 ^ 29
      ∧ ∃ t1, MerkleTree.buildTreeFromVector sampleDigest MerkleTree.new ["a", "b", "c"]
            = Except.ok t1
          ∧ t1.root.leafOrFull = true
          ∧ (∃ n2, calculateMerkleRootNode sampleDigest t1.root = Except.ok n2)
          ∧ (∃ t2, MerkleTree.calculateMerkleRoot sampleDigest t1 = Except.ok t2) :=
  ⟨by decide, by decide, buildTreeFromVector_leafOrFull sampleDigest MerkleTree.new ["a", "b", "c"]
    (by decide) (by decide)⟩

/-- C9 (hash format): `calculateHash` returns exactly 64 characters, each in
`0-9` or `a-f`, the two lower-case hexadecimal digits of each of the 32 digest
bytes in order; hence for a non-empty list the root digest returned by
`getMerkleRoot` after build and `calculateMerkleRoot`, and every node payload
at that point, is 64 lower-case hexadecimal characters.
The lists are of at most `2 ^ 29` items, the range in which the `int`
arithmetic of the program is exact. -/
theorem calculateHash_format (sha256 : String → Fin 32 → Fin 256) (str : String)
    (t : MerkleTree) (L : List String) (hL : L ≠ []) (hbound : L.length ≤ 2 ^ 29) :
    (calculateHash sha256 str).length = 64
      ∧ (∀ c ∈ (calculateHash sha256 str).data, isLowerHex c = true)
      ∧ (∀ i : Fin 32,
          (calculateHash sha256 str).data[2 * i.val]?
              = some (hexDigit ((sha256 str i).val / 16))
            ∧ (calculateHash sha256 str).data[2 * i.val + 1]?
              = some (hexDigit ((sha256 str i).val % 16)))
      ∧ ∃ t1 t2, MerkleTree.buildTreeFromVector sha256 t L = Except.ok t1
          ∧ MerkleTree.calculateMerkleRoot sha256 t1 = Except.ok t2
          ∧ isDigest t2.getMerkleRoot
          ∧ ∀ p ∈ t2.root.inorderData, isDigest p := by
  refine ⟨calculateHash_length _ _, (calculateHash_isDigest _ _).2, ?_, ?_⟩
  · intro i
    have h := hexLoop_getElem? (sha256 str) 32 0 i.val i.isLt (by omega)
    simp only [Nat.zero_add, i.isLt, dite_true, Fin.eta] at h
    exact h
  · obtain ⟨n1, hb, _, _, hd, hn, hf, _, _⟩ := buildTreeFromVector_spec sha256 t L hL
    obtain ⟨n2, _, hc2, hs, hd2, hcomb, _⟩ :=
      calculateMerkleRoot_spec sha256 { t with root := n1 } hn hf
    have hall : ∀ p ∈ n2.inorderData, isDigest p := by
      apply Node.inorderData_isDigest sha256 n2 _ hcomb
      · intro p hp
        rw [hd2] at hp
        change p ∈ n1.inorderLeafData at hp
        rw [hd] at hp
        simp only [List.mem_reverse, List.mem_map] at hp
        obtain ⟨x, _, rfl⟩ := hp
        exact calculateHash_isDigest _ _
      · rw [← Node.sameShape_leafOrFull hs]; exact hf
    refine ⟨_, _, hb, hc2, ?_, hall⟩
    show isDigest n2.data
    have hnn : n2.isNull = false := by rw [← Node.sameShape_isNull hs]; exact hn
    cases n2 with
    | null => simp [Node.isNull] at hnn
    | mk d l r => exact hall d (by simp [Node.inorderData])

/-- The hash format at the string `"txn1"` and a three-item list. -/
theorem calculateHash_format_witness :
    ["a", "b", "c"] ≠ ([] : List String) ∧ ["a", "b", "c"].length ≤ 2 ^ 29
      ∧ (calculateHash sampleDigest "txn1").length = 64
      ∧ (∀ c ∈ (calculateHash sampleDigest "txn1").data, isLowerHex c = true)
      ∧ (∀ i : Fin 32,
          (calculateHash sampleDigest "txn1").data[2 * i.val]?
              = some (hexDigit ((sampleDigest "txn1" i).val / 16))
            ∧ (calculateHash sampleDigest "txn1").data[2 * i.val + 1]?
              = some (hexDigit ((sampleDigest "txn1" i).val % 16)))
      ∧ ∃ t1 t2, MerkleTree.buildTreeFromVector sampleDigest MerkleTree.new ["a", "b", "c"]
              = Except.ok t1
          ∧ MerkleTree.calculateMerkleRoot sampleDigest t1 = Except.ok t2
          ∧ isDigest t2.getMerkleRoot
          ∧ ∀ p ∈ t2.root.inorderData, isDigest p :=
  ⟨by decide, by decide,
    calculateHash_format sampleDigest "txn1" MerkleTree.new ["a", "b", "c"]
      (by decide) (by decide)⟩

/-- C10 (four-item scenario): for every list `[a, b, c, d]`, in particular
`["txn1", "txn2", "txn3", "txn4"]`, the built tree has 7 nodes and 4 leaves
and the computed root is
`hash(hash(hash(d) ++ hash(c)) ++ hash(hash(b) ++ hash(a)))`. -/
theorem four_item_scenario (sha256 : String → Fin 32 → Fin 256) (a b c d : String) :
    ∃ t1 t2, MerkleTree.buildTreeFromVector sha256 MerkleTree.new [a, b, c, d] = Except.ok t1
      ∧ t1.root.size = 7
      ∧ t1.root.leafCount = 4
      ∧ MerkleTree.calculateMerkleRoot sha256 t1 = Except.ok t2
      ∧ t2.getMerkleRoot =
          calculateHash sha256
            (calculateHash sha256 (calculateHash sha256 d ++ calculateHash sha256 c)
              ++ calculateHash sha256 (calculateHash sha256 b ++ calculateHash sha256 a))
      ∧ rootDigest sha256 [a, b, c, d] = Except.ok t2.getMerkleRoot
      ∧ rootDigest sha256 ["txn1", "txn2", "txn3", "txn4"] =
          Except.ok (calculateHash sha256
            (calculateHash sha256 (calculateHash sha256 "txn4" ++ calculateHash sha256 "txn3")
              ++ calculateHash sha256
                  (calculateHash sha256 "txn2" ++ calculateHash sha256 "txn1"))) := by
  have hb : ∀ x y z w : String,
      MerkleTree.buildTreeFromVector sha256 MerkleTree.new [x, y, z, w] = Except.ok
        { root := Node.mk "1"
            (Node.mk "2" (Node.mk (calculateHash sha256 w) Node.null Node.null)
              (Node.mk (calculateHash sha256 z) Node.null Node.null))
            (Node.mk "3" (Node.mk (calculateHash sha256 y) Node.null Node.null)
              (Node.mk (calculateHash sha256 x) Node.null Node.null)),
          merkleRoot := "" } := by
    intro x y z w
    simp [MerkleTree.buildTreeFromVector, MerkleTree.new, buildTree, addLeafData, Node.isLeaf,
      Node.left, Node.right, Node.isNull, List.range, List.range.loop]
    exact ⟨by decide, by decide, by decide⟩
  have hc : ∀ x y z w : String,
      MerkleTree.calculateMerkleRoot sha256
        { root := Node.mk "1"
            (Node.mk "2" (Node.mk (calculateHash sha256 w) Node.null Node.null)
              (Node.mk (calculateHash sha256 z) Node.null Node.null))
            (Node.mk "3" (Node.mk (calculateHash sha256 y) Node.null Node.null)
              (Node.mk (calculateHash sha256 x) Node.null Node.null)),
          merkleRoot := "" } = Except.ok
        { root := Node.mk
            (calculateHash sha256
              (calculateHash sha256 (calculateHash sha256 w ++ calculateHash sha256 z)
                ++ calculateHash sha256 (calculateHash sha256 y ++ calculateHash sha256 x)))
            (Node.mk (calculateHash sha256 (calculateHash sha256 w ++ calculateHash sha256 z))
              (Node.mk (calculateHash sha256 w) Node.null Node.null)
              (Node.mk (calculateHash sha256 z) Node.null Node.null))
            (Node.mk (calculateHash sha256 (calculateHash sha256 y ++ calculateHash sha256 x))
              (Node.mk (calculateHash sha256 y) Node.null Node.null)
              (Node.mk (calculateHash sha256 x) Node.null Node.null)),
          merkleRoot :=
            calculateHash sha256
              (calculateHash sha256 (calculateHash sha256 w ++ calculateHash sha256 z)
                ++ calculateHash sha256 (calculateHash sha256 y ++ calculateHash sha256 x)) } := by
    intro x y z w
    simp [MerkleTree.calculateMerkleRoot, calculateMerkleRootNode, Node.isLeaf, Node.left,
      Node.right, Node.isNull, Node.data]
  refine ⟨_, _, hb a b c d, ?_, ?_, hc a b c d, rfl, ?_, ?_⟩
  · simp [Node.size]
  · simp [Node.leafCount, Node.isLeaf, Node.left, Node.right, Node.isNull]
  · simp only [rootDigest, hb, hc, MerkleTree.getMerkleRoot]
  · simp only [rootDigest, hb, hc, MerkleTree.getMerkleRoot]

/-- C7 (tamper sensitivity, content change and reorder): for two different
lists of the same length `N ≥ 1`, if `calculateHash` has no collision among the
strings it is applied to while the two roots are computed, the two root
digests differ.  That every hash output has 64 characters is a property of
`calculateHash` and needs no assumption.
The lists are of at most `2 ^ 29` items, the range in which the `int`
arithmetic of the program is exact. -/
theorem tamper_same_length (sha256 : String → Fin 32 → Fin 256) (L L1 : List String)
    (hN : 1 ≤ L.length) (hbound : L.length ≤ 2 ^ 29) (hlen : L1.length = L.length)
    (hne : L ≠ L1)
    (hcf : CollisionFree sha256 (hashedStrings sha256 L ++ hashedStrings sha256 L1)) :
    ∃ r r1, rootDigest sha256 L = Except.ok r ∧ rootDigest sha256 L1 = Except.ok r1
      ∧ r ≠ r1 := by
  have hL : L ≠ [] := List.length_pos.mp hN
  have hL1 : L1 ≠ [] := List.length_pos.mp (by omega)
  obtain ⟨n, hr, hi, hc, hs, hd, _, hf, _⟩ := hashedStrings_spec sha256 L hL
  obtain ⟨m, hr1, hi1, hc1, hs1, hd1, _, hf1, _⟩ := hashedStrings_spec sha256 L1 hL1
  refine ⟨_, _, hr, hr1, ?_⟩
  intro hroot
  apply hne
  rw [hlen] at hs1
  have hshape : Node.sameShape n m := Node.sameShape_trans (Node.sameShape_symm hs) hs1
  have hmem : ∀ s, s ∈ hashedStrings sha256 L ++ hashedStrings sha256 L1 ↔
      (s ∈ L ∨ s ∈ calculateMerkleRootHashed sha256 n)
        ∨ (s ∈ L1 ∨ s ∈ calculateMerkleRootHashed sha256 m) := by
    intro s
    simp only [hashedStrings, hi, hc, hi1, hc1, List.mem_append, List.mem_reverse]
  have hleaf := Node.referenceRoot_inj_sameShape sha256 _ hcf n m hf hf1 hshape
    (by
      intro p hp
      rw [hd] at hp
      simp only [List.mem_reverse, List.mem_map] at hp
      obtain ⟨x, _, rfl⟩ := hp
      exact calculateHash_length _ _)
    (by
      intro p hp
      rw [hd1] at hp
      simp only [List.mem_reverse, List.mem_map] at hp
      obtain ⟨x, _, rfl⟩ := hp
      exact calculateHash_length _ _)
    (fun s hs => (hmem s).mpr (Or.inl (Or.inr hs)))
    (fun s hs => (hmem s).mpr (Or.inr (Or.inr hs)))
    hroot
  rw [hd, hd1] at hleaf
  exact map_calculateHash_inj sha256 _ hcf L L1
    (fun x hx => (hmem x).mpr (Or.inl (Or.inl hx)))
    (fun x hx => (hmem x).mpr (Or.inr (Or.inl hx)))
    (List.reverse_injective hleaf)

/-- A reorder of two items changes the root under `sampleDigest`. -/
theorem tamper_same_length_witness :
    1 ≤ ["a", "b"].length ∧ ["a", "b"].length ≤ 2 ^ 29
      ∧ ["b", "a"].length = ["a", "b"].length
      ∧ ["a", "b"] ≠ ["b", "a"]
      ∧ CollisionFree sampleDigest
          (hashedStrings sampleDigest ["a", "b"] ++ hashedStrings sampleDigest ["b", "a"])
      ∧ ∃ r r1, rootDigest sampleDigest ["a", "b"] = Except.ok r
          ∧ rootDigest sampleDigest ["b", "a"] = Except.ok r1 ∧ r ≠ r1 :=
  have hcf : CollisionFree sampleDigest
      (hashedStrings sampleDigest ["a", "b"] ++ hashedStrings sampleDigest ["b", "a"]) := by
    simp only [hashedStrings, (rootDigest_pair sampleDigest "a" "b").2.1,
      (rootDigest_pair sampleDigest "a" "b").2.2, (rootDigest_pair sampleDigest "b" "a").2.1,
      (rootDigest_pair sampleDigest "b" "a").2.2]
    decide
  ⟨by decide, by decide, by decide, by decide, hcf,
    tamper_same_length sampleDigest ["a", "b"] ["b", "a"] (by decide) (by decide) (by decide)
      (by decide) hcf⟩

/-- Leaves and inner nodes are hashed alike, so for an arbitrary digest
function fixed-length outputs and the absence of collisions do not separate a
list from the list with one item inserted: with `sampleDigest` in the place of
SHA-256, whose outputs all have 64 characters and which has no collision among
the strings hashed for `[digestPairItem]` and for `[digestPairItem, "txn5"]`,
both lists have the same root digest.  (With SHA-256 itself the two roots
differ; an item of this kind would have to contain its own SHA-256 digest.) -/
theorem sampleDigest_leaf_inner_confusion :
    [digestPairItem] ≠ [] ∧ [digestPairItem, "txn5"] ≠ []
      ∧ insertedOne [digestPairItem] [digestPairItem, "txn5"]
      ∧ (∀ s, (calculateHash sampleDigest s).length = 64)
      ∧ CollisionFree sampleDigest
          (hashedStrings sampleDigest [digestPairItem]
            ++ hashedStrings sampleDigest [digestPairItem, "txn5"])
      ∧ rootDigest sampleDigest [digestPairItem]
          = Except.ok "b7b8b7e3b7b2b3b9b0b4b0b4b0b4b0b4b0b4b0b4b0b4b0b4b0b4b0b4b0b4b0b4"
      ∧ rootDigest sampleDigest [digestPairItem, "txn5"]
          = Except.ok "b7b8b7e3b7b2b3b9b0b4b0b4b0b4b0b4b0b4b0b4b0b4b0b4b0b4b0b4b0b4b0b4"
      ∧ ¬ ∃ r r1, rootDigest sampleDigest [digestPairItem] = Except.ok r
          ∧ rootDigest sampleDigest [digestPairItem, "txn5"] = Except.ok r1 ∧ r ≠ r1 := by
  have h5 : calculateHash sampleDigest "txn5"
      = "787c723904040404040404040404040404040404040404040404040404040404" := by decide
  have hx : calculateHash sampleDigest digestPairItem
      = "b7b8b7e3b7b2b3b9b0b4b0b4b0b4b0b4b0b4b0b4b0b4b0b4b0b4b0b4b0b4b0b4" := by decide
  have hcat : calculateHash sampleDigest "txn5" ++ calculateHash sampleDigest digestPairItem
      = digestPairItem := by rw [h5, hx]; rfl
  refine ⟨by simp, by simp, ⟨[digestPairItem], "txn5", [], rfl, rfl⟩,
    calculateHash_length sampleDigest, ?_, ?_, ?_, ?_⟩
  · have e2 : hashedStrings sampleDigest [digestPairItem, "txn5"]
        = ["txn5", digestPairItem, digestPairItem] := by
      simp only [hashedStrings, (rootDigest_pair sampleDigest digestPairItem "txn5").2.1,
        (rootDigest_pair sampleDigest digestPairItem "txn5").2.2, hcat]
      rfl
    rw [(rootDigest_singleton sampleDigest digestPairItem).2, e2]
    intro x hx1 y hy1 hxy
    simp only [List.cons_append, List.nil_append, List.mem_cons, List.mem_singleton,
      List.not_mem_nil, or_false] at hx1 hy1
    have hne : calculateHash sampleDigest digestPairItem ≠ calculateHash sampleDigest "txn5" := by
      rw [h5, hx]; decide
    rcases hx1 with rfl | rfl | rfl | rfl <;> rcases hy1 with rfl | rfl | rfl | rfl <;>
      first
        | rfl
        | exact absurd hxy hne
        | exact absurd hxy.symm hne
  · rw [(rootDigest_singleton sampleDigest digestPairItem).1, hx]
  · rw [(rootDigest_pair sampleDigest digestPairItem "txn5").1, hcat, hx]
  · rintro ⟨r, r1, e1, e2, hne⟩
    rw [(rootDigest_singleton sampleDigest digestPairItem).1] at e1
    rw [(rootDigest_pair sampleDigest digestPairItem "txn5").1, hcat] at e2
    rw [e1] at e2
    exact hne (Except.ok.inj e2)

/-- Insertion and deletion under a separation assumption: for non-empty lists
`L` and `L1` of at most `2 ^ 29` items, one obtained from the other by
inserting one item at any position, if `calculateHash` has no collision among
the strings it is applied to while the two roots are computed and no item of
either list is one of the strings hashed at a node with two children (the
concatenation of two child digests), then the two root digests differ.  The
separation assumption is an addition to the two assumptions about the hash
function; `sampleDigest_leaf_inner_confusion` shows what it excludes. -/
theorem tamper_insert_delete_of_separated (sha256 : String → Fin 32 → Fin 256)
    (L L1 : List String) (hL : L ≠ []) (hL1 : L1 ≠ []) (hbound : L.length ≤ 2 ^ 29)
    (hbound1 : L1.length ≤ 2 ^ 29) (hins : insertedOne L L1 ∨ insertedOne L1 L)
    (hcf : CollisionFree sha256 (hashedStrings sha256 L ++ hashedStrings sha256 L1))
    (hsep : ∀ x ∈ L ++ L1, x ∉ combinedStrings sha256 L ++ combinedStrings sha256 L1) :
    ∃ r r1, rootDigest sha256 L = Except.ok r ∧ rootDigest sha256 L1 = Except.ok r1
      ∧ r ≠ r1 := by
  obtain ⟨n, hr, hi, hc, _, hd, hcount, hf, hn⟩ := hashedStrings_spec sha256 L hL
  obtain ⟨m, hr1, hi1, hc1, _, hd1, hcount1, hf1, hn1⟩ := hashedStrings_spec sha256 L1 hL1
  refine ⟨_, _, hr, hr1, ?_⟩
  intro hroot
  have hmem : ∀ s, s ∈ hashedStrings sha256 L ++ hashedStrings sha256 L1 ↔
      (s ∈ L ∨ s ∈ calculateMerkleRootHashed sha256 n)
        ∨ (s ∈ L1 ∨ s ∈ calculateMerkleRootHashed sha256 m) := by
    intro s
    simp only [hashedStrings, hi, hc, hi1, hc1, List.mem_append, List.mem_reverse]
  have hshape := Node.referenceRoot_sameShape sha256 _
    (combinedStrings sha256 L ++ combinedStrings sha256 L1) hcf n m hf hf1 hn hn1
    (by
      intro p hp
      rw [hd] at hp
      simp only [List.mem_reverse, List.mem_map] at hp
      obtain ⟨x, hx, rfl⟩ := hp
      exact ⟨x, (hmem x).mpr (Or.inl (Or.inl hx)), hsep x (by simp [hx]), rfl⟩)
    (by
      intro p hp
      rw [hd1] at hp
      simp only [List.mem_reverse, List.mem_map] at hp
      obtain ⟨x, hx, rfl⟩ := hp
      exact ⟨x, (hmem x).mpr (Or.inr (Or.inl hx)), hsep x (by simp [hx]), rfl⟩)
    (fun s hs => ⟨(hmem s).mpr (Or.inl (Or.inr hs)), by simp [hc, hs]⟩)
    (fun s hs => ⟨(hmem s).mpr (Or.inr (Or.inr hs)), by simp [hc1, hs]⟩)
    hroot
  have hcnt := Node.sameShape_leafCount hshape
  rw [hcount, hcount1] at hcnt
  rcases hins with ⟨pre, x, post, h1, h2⟩ | ⟨pre, x, post, h1, h2⟩ <;>
    · rw [h1, h2] at hcnt
      simp only [List.length_append, List.length_cons] at hcnt
      omega

/-- Appending one item changes the root under `sampleDigest`. -/
theorem tamper_insert_delete_of_separated_witness :
    ["a"] ≠ ([] : List String) ∧ ["a", "b"] ≠ ([] : List String)
      ∧ ["a"].length ≤ 2 ^ 29 ∧ ["a", "b"].length ≤ 2 ^ 29
      ∧ (insertedOne ["a"] ["a", "b"] ∨ insertedOne ["a", "b"] ["a"])
      ∧ CollisionFree sampleDigest
          (hashedStrings sampleDigest ["a"] ++ hashedStrings sampleDigest ["a", "b"])
      ∧ (∀ x ∈ ["a"] ++ ["a", "b"],
          x ∉ combinedStrings sampleDigest ["a"] ++ combinedStrings sampleDigest ["a", "b"])
      ∧ ∃ r r1, rootDigest sampleDigest ["a"] = Except.ok r
          ∧ rootDigest sampleDigest ["a", "b"] = Except.ok r1 ∧ r ≠ r1 :=
  have hins : insertedOne ["a"] ["a", "b"] ∨ insertedOne ["a", "b"] ["a"] :=
    Or.inl ⟨["a"], "b", [], rfl, rfl⟩
  have hc0 : combinedStrings sampleDigest ["a"] = [] := by
    simp [combinedStrings, MerkleTree.buildTreeFromVector, MerkleTree.new, buildTree,
      addLeafData, calculateMerkleRootHashed, Node.isLeaf, Node.left, Node.right, Node.isNull]
  have hcf : CollisionFree sampleDigest
      (hashedStrings sampleDigest ["a"] ++ hashedStrings sampleDigest ["a", "b"]) := by
    rw [(rootDigest_singleton sampleDigest "a").2]
    simp only [hashedStrings, (rootDigest_pair sampleDigest "a" "b").2.1,
      (rootDigest_pair sampleDigest "a" "b").2.2]
    decide
  have hsep : ∀ x ∈ ["a"] ++ ["a", "b"],
      x ∉ combinedStrings sampleDigest ["a"] ++ combinedStrings sampleDigest ["a", "b"] := by
    rw [hc0, (rootDigest_pair sampleDigest "a" "b").2.2]
    decide
  ⟨by decide, by decide, by decide, by decide, hins, hcf, hsep,
    tamper_insert_delete_of_separated sampleDigest ["a"] ["a", "b"] (by decide) (by decide)
      (by decide) (by decide) hins hcf hsep⟩

/-! ## Further properties of the operations -/

theorem buildTreeFromVector_singleton (sha256 : String → Fin 32 → Fin 256) (t : MerkleTree)
    (x : String) :
    MerkleTree.buildTreeFromVector sha256 t [x]
      = Except.ok { t with root := Node.mk (calculateHash sha256 x) Node.null Node.null } := by
  simp [MerkleTree.buildTreeFromVector, buildTree, addLeafData, Node.isLeaf, Node.left,
    Node.right, Node.isNull]

theorem calculateMerkleRootNode_fixed (sha256 : String → Fin 32 → Fin 256) (n : Node)
    (hfull : n.leafOrFull = true) (hn : n.isNull = false) (hc : Node.combined sha256 n) :
    calculateMerkleRootNode sha256 n = Except.ok n := by
  induction n with
  | null => simp [Node.isNull] at hn
  | mk d l r ihl ihr =>
    rcases Node.leafOrFull_cases d l r hfull with ⟨hl, hr⟩ | ⟨hln, hlf, hrn, hrf⟩
    · subst hl; subst hr
      simp [calculateMerkleRootNode, Node.isLeaf, Node.left, Node.right, Node.isNull]
    · obtain ⟨hd, hcl, hcr⟩ := hc
      have hleaf : (Node.mk d l r).isLeaf = false := by
        simp [Node.isLeaf, Node.left, Node.right, hln]
      have hfl : (Node.mk d l r).isFull = true := by
        simp [Node.isFull, Node.left, Node.right, hln, hrn]
      rw [calculateMerkleRootNode]
      simp only [hleaf, Bool.false_eq_true, if_false, ihl hlf hln hcl, ihr hrf hrn hcr]
      rw [← hd hfl]

theorem verifyTransactions_of_empty_root (sha256 : String → Fin 32 → Fin 256) (t : MerkleTree)
    (ht : t.merkleRoot = "") (C : List String) (hC : C ≠ []) :
    MerkleTree.verifyTransactions sha256 t C = Except.ok (t, false) := by
  obtain ⟨n1, hb, _, _, hd, hn, hf, _, _⟩ :=
    buildTreeFromVector_spec sha256 MerkleTree.new C hC
  obtain ⟨n2, _, hc2, hs, _, _, href⟩ :=
    calculateMerkleRoot_spec sha256 { MerkleTree.new with root := n1 } hn hf
  have hlen : n2.data.length = 64 := by
    rw [href]
    apply Node.referenceRoot_length sha256 n1 hn
    intro p hp
    rw [hd] at hp
    simp only [List.mem_reverse, List.mem_map] at hp
    obtain ⟨x, _, rfl⟩ := hp
    exact calculateHash_length _ _
  have hne : ¬ (t.merkleRoot = n2.data) := by
    intro h
    rw [← h, ht] at hlen
    simp at hlen
  simp only [MerkleTree.verifyTransactions, hb, hc2, MerkleTree.getMerkleRoot, hne, if_false]

/-- C11 (single-item scenario): for every one-item list `[x]`, in particular
`["only"]`, the built tree has exactly one node, which is the root and a leaf;
`calculateMerkleRoot` hashes nothing, leaves the node as it is, and the root
digest is `hash(x)`. -/
theorem single_item_scenario (sha256 : String → Fin 32 → Fin 256) (t : MerkleTree)
    (x : String) :
    ∃ t1 t2, MerkleTree.buildTreeFromVector sha256 t [x] = Except.ok t1
      ∧ t1.root.size = 1
      ∧ t1.root.isNull = false
      ∧ t1.root.isLeaf = true
      ∧ t1.root.leafCount = 1
      ∧ calculateMerkleRootHashed sha256 t1.root = []
      ∧ MerkleTree.calculateMerkleRoot sha256 t1 = Except.ok t2
      ∧ t2.root = t1.root
      ∧ t2.getMerkleRoot = calculateHash sha256 x
      ∧ rootDigest sha256 [x] = Except.ok (calculateHash sha256 x)
      ∧ rootDigest sha256 ["only"] = Except.ok (calculateHash sha256 "only") := by
  refine ⟨_, MerkleTree.mk (Node.mk (calculateHash sha256 x) Node.null Node.null)
      (calculateHash sha256 x), buildTreeFromVector_singleton sha256 t x,
    ?_, ?_, ?_, ?_, ?_, ?_, rfl, rfl, (rootDigest_singleton sha256 x).1,
    (rootDigest_singleton sha256 "only").1⟩
  · simp [Node.size]
  · simp [Node.isNull]
  · simp [Node.isLeaf, Node.left, Node.right, Node.isNull]
  · simp [Node.leafCount, Node.isLeaf, Node.left, Node.right, Node.isNull]
  · simp [calculateMerkleRootHashed, Node.isLeaf, Node.left, Node.right, Node.isNull]
  · simp [MerkleTree.calculateMerkleRoot, calculateMerkleRootNode, Node.isLeaf, Node.left,
      Node.right, Node.isNull, Node.data]

/-- C12 (root not yet computed): `getMerkleRoot` returns the empty string on a
freshly constructed tree and on a tree built from a non-empty list without a
call of `calculateMerkleRoot`; `calculateMerkleRoot` on a tree without a root
node returns the state unchanged, whatever the stored digest `m` is.
The lists are of at most `2 ^ 29` items, the range in which the `int`
arithmetic of the program is exact. -/
theorem root_not_yet_computed (sha256 : String → Fin 32 → Fin 256) (L : List String)
    (hL : L ≠ []) (hbound : L.length ≤ 2 ^ 29) (m : String) :
    MerkleTree.new.getMerkleRoot = ""
      ∧ (∃ t1, MerkleTree.buildTreeFromVector sha256 MerkleTree.new L = Except.ok t1
          ∧ t1.root.isNull = false ∧ t1.getMerkleRoot = "")
      ∧ MerkleTree.calculateMerkleRoot sha256 MerkleTree.new = Except.ok MerkleTree.new
      ∧ MerkleTree.calculateMerkleRoot sha256 { root := Node.null, merkleRoot := m }
          = Except.ok { root := Node.null, merkleRoot := m } := by
  obtain ⟨n1, hb, _, _, _, hn, _⟩ := buildTreeFromVector_spec sha256 MerkleTree.new L hL
  exact ⟨rfl, ⟨_, hb, hn, rfl⟩, rfl, rfl⟩

/-- The uncomputed root at a three-item list and the stored digest `"abc"`. -/
theorem root_not_yet_computed_witness :
    ["a", "b", "c"] ≠ ([] : List String) ∧ ["a", "b", "c"].length ≤ 2 ^ 29
      ∧ MerkleTree.new.getMerkleRoot = ""
      ∧ (∃ t1, MerkleTree.buildTreeFromVector sampleDigest MerkleTree.new ["a", "b", "c"]
            = Except.ok t1
          ∧ t1.root.isNull = false ∧ t1.getMerkleRoot = "")
      ∧ MerkleTree.calculateMerkleRoot sampleDigest MerkleTree.new = Except.ok MerkleTree.new
      ∧ MerkleTree.calculateMerkleRoot sampleDigest { root := Node.null, merkleRoot := "abc" }
          = Except.ok { root := Node.null, merkleRoot := "abc" } :=
  ⟨by decide, by decide,
    root_not_yet_computed sampleDigest ["a", "b", "c"] (by decide) (by decide) "abc"⟩

/-- C13 (empty input): building from the empty list does not return a tree:
`numNodes` is `-1`, the constructor of `nodeIndices` throws, and the caller of
`buildTreeFromVector`, of the `main` sequence or of `verifyTransactions`
receives that error; no root node and no root digest is produced. -/
theorem empty_input_reported (sha256 : String → Fin 32 → Fin 256) (t : MerkleTree) :
    MerkleTree.buildTreeFromVector sha256 t [] = Except.error Fault.lengthError
      ∧ rootDigest sha256 [] = Except.error Fault.lengthError
      ∧ MerkleTree.verifyTransactions sha256 t [] = Except.error Fault.lengthError
      ∧ (∀ t1, MerkleTree.buildTreeFromVector sha256 t [] ≠ Except.ok t1)
      ∧ (∀ r, rootDigest sha256 [] ≠ Except.ok r) := by
  have hb : ∀ u, MerkleTree.buildTreeFromVector sha256 u [] = Except.error Fault.lengthError := by
    intro u
    simp [MerkleTree.buildTreeFromVector]
  have hr : rootDigest sha256 [] = Except.error Fault.lengthError := by
    simp only [rootDigest, hb]
  refine ⟨hb t, hr, ?_, ?_, ?_⟩
  · simp only [MerkleTree.verifyTransactions, hb]
  · intro t1 h
    rw [hb] at h
    cases h
  · intro r h
    rw [hr] at h
    cases h

/-- C14 (no underflow, exact drain): for a list of `N ≥ 1` items,
`addLeafData` over the tree of `2N-1` nodes returns normally, so `back()` is
never reached on an empty vector, and the vector it has worked on is empty at
the end; exactly the `N` items were hashed, last item first.
The lists are of at most `2 ^ 29` items, the range in which the `int`
arithmetic of the program is exact. -/
theorem addLeafData_exact_drain (sha256 : String → Fin 32 → Fin 256) (L : List String)
    (hN : 1 ≤ L.length) (hbound : L.length ≤ 2 ^ 29) :
    ∃ n1, addLeafData sha256 L
          (buildTree ((List.range (2 * L.length - 1)).map (fun i : Nat => (i : Int) + 1)) 0
            (2 * L.length - 1)) = Except.ok ([], n1)
      ∧ (buildTree ((List.range (2 * L.length - 1)).map (fun i : Nat => (i : Int) + 1)) 0
            (2 * L.length - 1)).size = 2 * L.length - 1
      ∧ addLeafDataHashed sha256 L
          (buildTree ((List.range (2 * L.length - 1)).map (fun i : Nat => (i : Int) + 1)) 0
            (2 * L.length - 1)) = L.reverse
      ∧ n1.leafCount = L.length
      ∧ MerkleTree.buildTreeFromVector sha256 MerkleTree.new L
          = Except.ok { MerkleTree.new with root := n1 } := by
  have hne : L ≠ [] := List.length_pos.mp hN
  obtain ⟨n1, hb, ha, hs, _, _, _, _, hlc⟩ :=
    buildTreeFromVector_spec sha256 MerkleTree.new L hne
  refine ⟨n1, ha, buildTree_size _ _, ?_, hlc, hb⟩
  have h := addLeafDataHashed_spec sha256
    (buildTree ((List.range (2 * L.length - 1)).map (fun i : Nat => (i : Int) + 1)) 0
      (2 * L.length - 1)) [] L.reverse
    (by rw [Node.sameShape_leafCount hs, hlc, List.length_reverse])
  simpa using h

/-- The drain at three items: 5 nodes, the three items hashed, nothing left. -/
theorem addLeafData_exact_drain_witness :
    1 ≤ ["a", "b", "c"].length ∧ ["a", "b", "c"].length ≤ 2 ^ 29
      ∧ ∃ n1, addLeafData sampleDigest ["a", "b", "c"]
            (buildTree ((List.range (2 * ["a", "b", "c"].length - 1)).map
              (fun i : Nat => (i : Int) + 1)) 0 (2 * ["a", "b", "c"].length - 1))
            = Except.ok ([], n1)
          ∧ (buildTree ((List.range (2 * ["a", "b", "c"].length - 1)).map
              (fun i : Nat => (i : Int) + 1)) 0 (2 * ["a", "b", "c"].length - 1)).size
            = 2 * ["a", "b", "c"].length - 1
          ∧ addLeafDataHashed sampleDigest ["a", "b", "c"]
              (buildTree ((List.range (2 * ["a", "b", "c"].length - 1)).map
                (fun i : Nat => (i : Int) + 1)) 0 (2 * ["a", "b", "c"].length - 1))
            = ["a", "b", "c"].reverse
          ∧ n1.leafCount = ["a", "b", "c"].length
          ∧ MerkleTree.buildTreeFromVector sampleDigest MerkleTree.new ["a", "b", "c"]
              = Except.ok { MerkleTree.new with root := n1 } :=
  ⟨by decide, by decide,
    addLeafData_exact_drain sampleDigest ["a", "b", "c"] (by decide) (by decide)⟩

/-- C15 (determinism): for a non-empty list `L`, build followed by
`calculateMerkleRoot` on two tree instances in arbitrary states `t` and `u`
gives the same root digest, the one of the `main` sequence on a fresh
instance: the digest depends on `L` and the hash function only.
The lists are of at most `2 ^ 29` items, the range in which the `int`
arithmetic of the program is exact. -/
theorem rootDigest_deterministic (sha256 : String → Fin 32 → Fin 256) (t u : MerkleTree)
    (L : List String) (hL : L ≠ []) (hbound : L.length ≤ 2 ^ 29) :
    ∃ t1 t2 u1 u2, MerkleTree.buildTreeFromVector sha256 t L = Except.ok t1
      ∧ MerkleTree.calculateMerkleRoot sha256 t1 = Except.ok t2
      ∧ MerkleTree.buildTreeFromVector sha256 u L = Except.ok u1
      ∧ MerkleTree.calculateMerkleRoot sha256 u1 = Except.ok u2
      ∧ t2.getMerkleRoot = u2.getMerkleRoot
      ∧ t2.root = u2.root
      ∧ rootDigest sha256 L = Except.ok t2.getMerkleRoot := by
  obtain ⟨n1, hb, _, _, _, hn, hf, _, _⟩ := buildTreeFromVector_spec sha256 t L hL
  have hbu := (buildTreeFromVector_root sha256 t u L _ hb).2
  have hbn := (buildTreeFromVector_root sha256 t MerkleTree.new L _ hb).2
  obtain ⟨n2, h2, hc2, _⟩ := calculateMerkleRoot_spec sha256 { t with root := n1 } hn hf
  have hcu : MerkleTree.calculateMerkleRoot sha256 { u with root := n1 }
      = Except.ok { root := n2, merkleRoot := n2.data } := by
    simp only [MerkleTree.calculateMerkleRoot, hn, Bool.false_eq_true, if_false]
    rw [show calculateMerkleRootNode sha256 n1 = Except.ok n2 from h2]
  have hcn : MerkleTree.calculateMerkleRoot sha256 { MerkleTree.new with root := n1 }
      = Except.ok { root := n2, merkleRoot := n2.data } := by
    simp only [MerkleTree.calculateMerkleRoot, hn, Bool.false_eq_true, if_false]
    rw [show calculateMerkleRootNode sha256 n1 = Except.ok n2 from h2]
  refine ⟨_, _, _, _, hb, hc2, hbu, hcu, rfl, rfl, ?_⟩
  simp only [rootDigest, hbn, hcn, MerkleTree.getMerkleRoot]

/-- Determinism at a three-item list, from a fresh instance and from one with
a stale root digest. -/
theorem rootDigest_deterministic_witness :
    ["a", "b", "c"] ≠ ([] : List String) ∧ ["a", "b", "c"].length ≤ 2 ^ 29
      ∧ ∃ t1 t2 u1 u2,
          MerkleTree.buildTreeFromVector sampleDigest MerkleTree.new ["a", "b", "c"]
            = Except.ok t1
          ∧ MerkleTree.calculateMerkleRoot sampleDigest t1 = Except.ok t2
          ∧ MerkleTree.buildTreeFromVector sampleDigest
              { root := Node.mk "9" Node.null Node.null, merkleRoot := "stale" } ["a", "b", "c"]
            = Except.ok u1
          ∧ MerkleTree.calculateMerkleRoot sampleDigest u1 = Except.ok u2
          ∧ t2.getMerkleRoot = u2.getMerkleRoot
          ∧ t2.root = u2.root
          ∧ rootDigest sampleDigest ["a", "b", "c"] = Except.ok t2.getMerkleRoot :=
  ⟨by decide, by decide, rootDigest_deterministic sampleDigest MerkleTree.new
    { root := Node.mk "9" Node.null Node.null, merkleRoot := "stale" } ["a", "b", "c"]
    (by decide) (by decide)⟩

/-- C16 (verification does not disturb the tree): for every tree state `t` and
non-empty candidate list, the state after `verifyTransactions` is `t` itself
(root reference, every node payload and stored digest), and the answer does
not depend on the nodes of `t`: the candidate is processed in a separate
instance.
The lists are of at most `2 ^ 29` items, the range in which the `int`
arithmetic of the program is exact. -/
theorem verifyTransactions_frame (sha256 : String → Fin 32 → Fin 256) (t : MerkleTree)
    (C : List String) (hC : C ≠ []) (hbound : C.length ≤ 2 ^ 29) :
    ∃ b, MerkleTree.verifyTransactions sha256 t C = Except.ok (t, b)
      ∧ ∀ n : Node, MerkleTree.verifyTransactions sha256 { t with root := n } C
          = Except.ok ({ t with root := n }, b) := by
  obtain ⟨n1, n2, hb, hc, _⟩ := rootDigest_spec sha256 C hC
  by_cases heq : t.merkleRoot = n2.data
  · refine ⟨true, ?_, ?_⟩
    · simp only [MerkleTree.verifyTransactions, hb, hc, MerkleTree.getMerkleRoot, heq, if_true]
    · intro n
      simp only [MerkleTree.verifyTransactions, hb, hc, MerkleTree.getMerkleRoot, heq, if_true]
  · refine ⟨false, ?_, ?_⟩
    · simp only [MerkleTree.verifyTransactions, hb, hc, MerkleTree.getMerkleRoot, heq, if_false]
    · intro n
      simp only [MerkleTree.verifyTransactions, hb, hc, MerkleTree.getMerkleRoot, heq, if_false]

/-- The frame property at a one-node tree with a stored digest. -/
theorem verifyTransactions_frame_witness :
    ["a", "b", "c"] ≠ ([] : List String) ∧ ["a", "b", "c"].length ≤ 2 ^ 29
      ∧ ∃ b, MerkleTree.verifyTransactions sampleDigest
            { root := Node.mk "9" Node.null Node.null, merkleRoot := "stored" } ["a", "b", "c"]
            = Except.ok ({ root := Node.mk "9" Node.null Node.null, merkleRoot := "stored" }, b)
          ∧ ∀ n : Node, MerkleTree.verifyTransactions sampleDigest
              { ({ root := Node.mk "9" Node.null Node.null, merkleRoot := "stored" } :
                  MerkleTree) with root := n } ["a", "b", "c"]
            = Except.ok
                ({ ({ root := Node.mk "9" Node.null Node.null, merkleRoot := "stored" } :
                  MerkleTree) with root := n }, b) :=
  ⟨by decide, by decide, verifyTransactions_frame sampleDigest
    { root := Node.mk "9" Node.null Node.null, merkleRoot := "stored" } ["a", "b", "c"]
    (by decide) (by decide)⟩

/-- C18 (idempotence of the root computation): for a tree built from a
non-empty list, a second call of `calculateMerkleRoot` returns the state the
first call produced: every node payload and the stored digest are as they
were.
The lists are of at most `2 ^ 29` items, the range in which the `int`
arithmetic of the program is exact. -/
theorem calculateMerkleRoot_idempotent (sha256 : String → Fin 32 → Fin 256) (t : MerkleTree)
    (L : List String) (hL : L ≠ []) (hbound : L.length ≤ 2 ^ 29) :
    ∃ t1 t2, MerkleTree.buildTreeFromVector sha256 t L = Except.ok t1
      ∧ MerkleTree.calculateMerkleRoot sha256 t1 = Except.ok t2
      ∧ MerkleTree.calculateMerkleRoot sha256 t2 = Except.ok t2 := by
  obtain ⟨n1, hb, _, _, _, hn, hf, _, _⟩ := buildTreeFromVector_spec sha256 t L hL
  obtain ⟨n2, _, hc2, hs, _, hcomb, _⟩ :=
    calculateMerkleRoot_spec sha256 { t with root := n1 } hn hf
  refine ⟨_, _, hb, hc2, ?_⟩
  have hn2 : n2.isNull = false := by rw [← Node.sameShape_isNull hs]; exact hn
  have hf2 : n2.leafOrFull = true := by rw [← Node.sameShape_leafOrFull hs]; exact hf
  simp only [MerkleTree.calculateMerkleRoot, hn2, Bool.false_eq_true, if_false,
    calculateMerkleRootNode_fixed sha256 n2 hf2 hn2 hcomb]

/-- Idempotence at a three-item list. -/
theorem calculateMerkleRoot_idempotent_witness :
    ["a", "b", "c"] ≠ ([] : List String) ∧ ["a", "b", "c"].length ≤ 2 ^ 29
      ∧ ∃ t1 t2, MerkleTree.buildTreeFromVector sampleDigest MerkleTree.new ["a", "b", "c"]
            = Except.ok t1
          ∧ MerkleTree.calculateMerkleRoot sampleDigest t1 = Except.ok t2
          ∧ MerkleTree.calculateMerkleRoot sampleDigest t2 = Except.ok t2 :=
  ⟨by decide, by decide, calculateMerkleRoot_idempotent sampleDigest MerkleTree.new ["a", "b", "c"]
    (by decide) (by decide)⟩

/-- C20 (verification against an uncomputed root): on a freshly constructed
tree, and on a tree built from a non-empty list without a call of
`calculateMerkleRoot`, the stored digest is the empty string and
`verifyTransactions` returns `false` for every non-empty candidate list.
The lists are of at most `2 ^ 29` items, the range in which the `int`
arithmetic of the program is exact. -/
theorem verifyTransactions_uncomputed (sha256 : String → Fin 32 → Fin 256)
    (L C : List String) (hL : L ≠ []) (hC : C ≠ []) (hboundL : L.length ≤ 2 ^ 29)
    (hboundC : C.length ≤ 2 ^ 29) :
    MerkleTree.new.merkleRoot = ""
      ∧ MerkleTree.verifyTransactions sha256 MerkleTree.new C
          = Except.ok (MerkleTree.new, false)
      ∧ ∃ t1, MerkleTree.buildTreeFromVector sha256 MerkleTree.new L = Except.ok t1
          ∧ t1.merkleRoot = ""
          ∧ MerkleTree.verifyTransactions sha256 t1 C = Except.ok (t1, false)
          ∧ MerkleTree.verifyTransactions sha256 t1 L = Except.ok (t1, false) := by
  obtain ⟨n1, hb, _⟩ := buildTreeFromVector_spec sha256 MerkleTree.new L hL
  exact ⟨rfl, verifyTransactions_of_empty_root sha256 _ rfl C hC,
    _, hb, rfl, verifyTransactions_of_empty_root sha256 _ rfl C hC,
    verifyTransactions_of_empty_root sha256 _ rfl L hL⟩

/-- The uncomputed root against the list of `main`. -/
theorem verifyTransactions_uncomputed_witness :
    ["txn1", "txn2", "txn3", "txn4"] ≠ ([] : List String) ∧ ["a"] ≠ ([] : List String)
      ∧ ["txn1", "txn2", "txn3", "txn4"].length ≤ 2 ^ 29 ∧ ["a"].length ≤ 2 ^ 29
      ∧ MerkleTree.new.merkleRoot = ""
      ∧ MerkleTree.verifyTransactions sampleDigest MerkleTree.new ["a"]
          = Except.ok (MerkleTree.new, false)
      ∧ ∃ t1, MerkleTree.buildTreeFromVector sampleDigest MerkleTree.new
            ["txn1", "txn2", "txn3", "txn4"] = Except.ok t1
          ∧ t1.merkleRoot = ""
          ∧ MerkleTree.verifyTransactions sampleDigest t1 ["a"] = Except.ok (t1, false)
          ∧ MerkleTree.verifyTransactions sampleDigest t1 ["txn1", "txn2", "txn3", "txn4"]
              = Except.ok (t1, false) :=
  ⟨by decide, by decide, by decide, by decide, verifyTransactions_uncomputed sampleDigest
    ["txn1", "txn2", "txn3", "txn4"] ["a"] (by decide) (by decide) (by decide) (by decide)⟩

/-! ## Positions and placeholders -/

theorem nodeIndices_getD (numNodes i : Nat) (hi : i < numNodes) :
    ((List.range numNodes).map (fun i : Nat => (i : Int) + 1)).getD i 0 = (i : Int) + 1 := by
  rw [List.getD_eq_getElem?_getD, List.getElem?_map, List.getElem?_range hi]
  rfl

theorem Node.subtreeAt_buildTree (indices : List Int) (numNodes i : Nat) :
    (buildTree indices 0 numNodes).subtreeAt i = buildTree indices i numNodes := by
  induction i using Nat.strong_induction_on with
  | _ i ih =>
    cases i with
    | zero => rw [Node.subtreeAt]
    | succ j =>
      rw [Node.subtreeAt, ih (j / 2) (by omega)]
      by_cases hlt : j / 2 < numNodes
      · rw [buildTree_lt _ _ _ hlt]
        by_cases hj : j % 2 = 0
        · simp only [hj, if_true, Node.left]
          congr 1; omega
        · simp only [hj, if_false, Node.right]
          congr 1; omega
      · rw [buildTree_ge _ (j / 2) _ (by omega), buildTree_ge _ (j + 1) _ (by omega)]
        split <;> rfl

theorem Node.internalKept_children {a b : Node} (h : Node.internalKept a b) :
    Node.internalKept a.left b.left ∧ Node.internalKept a.right b.right := by
  cases a with
  | null => cases b <;> simp_all [Node.internalKept, Node.left, Node.right]
  | mk d l r =>
    cases b with
    | null => simp [Node.internalKept] at h
    | mk d1 l1 r1 => exact ⟨h.2.1, h.2.2⟩

theorem Node.internalKept_subtreeAt {a b : Node} (h : Node.internalKept a b) (i : Nat) :
    Node.internalKept (a.subtreeAt i) (b.subtreeAt i) := by
  induction i using Nat.strong_induction_on with
  | _ i ih =>
    cases i with
    | zero => rw [Node.subtreeAt, Node.subtreeAt]; exact h
    | succ j =>
      rw [Node.subtreeAt, Node.subtreeAt]
      have hc := Node.internalKept_children (ih (j / 2) (by omega))
      split
      · exact hc.1
      · exact hc.2

theorem Node.internalKept_isNull {a b : Node} (h : Node.internalKept a b) :
    a.isNull = b.isNull := by
  cases a <;> cases b <;> simp_all [Node.internalKept, Node.isNull]

theorem Node.internalKept_data {a b : Node} (h : Node.internalKept a b) :
    a.isLeaf = b.isLeaf ∧ (a.isLeaf = false → b.data = a.data) := by
  cases a with
  | null => cases b <;> simp_all [Node.internalKept]
  | mk d l r =>
    cases b with
    | null => simp [Node.internalKept] at h
    | mk d1 l1 r1 =>
      refine ⟨?_, h.1⟩
      simp only [Node.isLeaf, Node.left, Node.right, Node.internalKept_isNull h.2.1,
        Node.internalKept_isNull h.2.2]

theorem addLeafData_internalKept (sha256 : String → Fin 32 → Fin 256) (n : Node) :
    ∀ (ts ts1 : List String) (n1 : Node),
      addLeafData sha256 ts n = Except.ok (ts1, n1) → Node.internalKept n n1 := by
  induction n with
  | null =>
    intro ts ts1 n1 h
    simp only [addLeafData, Except.ok.injEq, Prod.mk.injEq] at h
    rw [← h.2]
    trivial
  | mk d l r ihl ihr =>
    intro ts ts1 n1 h
    rw [addLeafData] at h
    split at h
    · cases h
    · rename_i tsl l1 hl
      cases hleaf : (Node.mk d l r).isLeaf with
      | true =>
        simp only [hleaf, if_true] at h
        cases hlast : tsl.getLast? with
        | none => simp only [hlast] at h; cases h
        | some back =>
          simp only [hlast] at h
          split at h
          · cases h
          · rename_i ts3 r1 hr
            simp only [Except.ok.injEq, Prod.mk.injEq] at h
            rw [← h.2]
            exact ⟨fun hf => Bool.noConfusion (hleaf.symm.trans hf), ihl _ _ _ hl,
              ihr _ _ _ hr⟩
      | false =>
        simp only [hleaf, Bool.false_eq_true, if_false] at h
        split at h
        · cases h
        · rename_i ts3 r1 hr
          simp only [Except.ok.injEq, Prod.mk.injEq] at h
          rw [← h.2]
          exact ⟨fun _ => rfl, ihl _ _ _ hl, ihr _ _ _ hr⟩

theorem toString_natCast_succ (i : Nat) : toString ((i : Int) + 1) = toString (i + 1) := by
  have h : (i : Int) + 1 = ((i + 1 : Nat) : Int) := by push_cast; rfl
  rw [h]
  rfl

/-- C17 as stated fails: for one item the node that `buildTree` creates at
position 0 is initialized with `"1"`, not with the decimal string `"0"` of its
position; for two items the root, an internal node at position 0, holds `"1"`
after `buildTreeFromVector`. -/
theorem placeholder_counterexample :
    ((buildTree ((List.range (2 * 1 - 1)).map (fun i : Nat => (i : Int) + 1)) 0
        (2 * 1 - 1)).subtreeAt 0).data = "1"
      ∧ "1" ≠ toString (0 : Nat)
      ∧ ∃ t1, MerkleTree.buildTreeFromVector sampleDigest MerkleTree.new ["a", "b"]
            = Except.ok t1
          ∧ (t1.root.subtreeAt 0).isLeaf = false
          ∧ (t1.root.subtreeAt 0).data = "1"
          ∧ (t1.root.subtreeAt 0).data ≠ toString (0 : Nat) := by
  refine ⟨?_, by decide, ?_⟩
  · rw [Node.subtreeAt_buildTree, buildTree_lt _ _ _ (by decide)]
    simp only [Node.data]
    decide
  · refine ⟨MerkleTree.mk (Node.mk "1"
        (Node.mk (calculateHash sampleDigest "b") Node.null Node.null)
        (Node.mk (calculateHash sampleDigest "a") Node.null Node.null)) "",
      ?_, ?_, ?_, ?_⟩
    · simp [MerkleTree.buildTreeFromVector, MerkleTree.new, buildTree, addLeafData, Node.isLeaf,
        Node.left, Node.right, Node.isNull, List.range, List.range.loop]
      decide
    · rw [Node.subtreeAt]; rfl
    · rw [Node.subtreeAt]; rfl
    · rw [Node.subtreeAt]; decide

/-- C17 as amended (placeholder payload): for `N ≥ 1` items and every position
`i < 2N-1` of the 0-based heap numbering, the node that `buildTree` creates at
position `i` is initialized with the decimal string of `i + 1`, the value of
`nodeIndices[i]`; after `buildTreeFromVector` there is a node at every such
position and each one that is not a leaf still holds that string.
The lists are of at most `2 ^ 29` items, the range in which the `int`
arithmetic of the program is exact. -/
theorem placeholder_payload (sha256 : String → Fin 32 → Fin 256) (t : MerkleTree)
    (L : List String) (hN : 1 ≤ L.length) (hbound : L.length ≤ 2 ^ 29) (i : Nat)
    (hi : i < 2 * L.length - 1) :
    ((buildTree ((List.range (2 * L.length - 1)).map (fun i : Nat => (i : Int) + 1)) 0
        (2 * L.length - 1)).subtreeAt i).isNull = false
      ∧ ((buildTree ((List.range (2 * L.length - 1)).map (fun i : Nat => (i : Int) + 1)) 0
          (2 * L.length - 1)).subtreeAt i).data = toString (i + 1)
      ∧ ∃ t1, MerkleTree.buildTreeFromVector sha256 t L = Except.ok t1
          ∧ (t1.root.subtreeAt i).isNull = false
          ∧ ((t1.root.subtreeAt i).isLeaf = false →
              (t1.root.subtreeAt i).data = toString (i + 1)) := by
  have hne : L ≠ [] := List.length_pos.mp hN
  obtain ⟨n1, hb, ha, _⟩ := buildTreeFromVector_spec sha256 t L hne
  have hk := Node.internalKept_subtreeAt (addLeafData_internalKept sha256 _ _ _ _ ha) i
  have hnull : ((buildTree ((List.range (2 * L.length - 1)).map
      (fun i : Nat => (i : Int) + 1)) 0 (2 * L.length - 1)).subtreeAt i).isNull = false := by
    rw [Node.subtreeAt_buildTree, buildTree_isNull]
    simp only [decide_eq_false_iff_not, Nat.not_le]
    exact hi
  have hdata : ((buildTree ((List.range (2 * L.length - 1)).map
      (fun i : Nat => (i : Int) + 1)) 0 (2 * L.length - 1)).subtreeAt i).data
      = toString (i + 1) := by
    rw [Node.subtreeAt_buildTree, buildTree_lt _ _ _ hi]
    simp only [Node.data]
    rw [nodeIndices_getD _ _ hi, toString_natCast_succ]
  refine ⟨hnull, hdata, _, hb, ?_, ?_⟩
  · show (n1.subtreeAt i).isNull = false
    rw [← Node.internalKept_isNull hk]; exact hnull
  · show (n1.subtreeAt i).isLeaf = false → (n1.subtreeAt i).data = toString (i + 1)
    intro hleaf
    have hd := Node.internalKept_data hk
    rw [← hd.1] at hleaf
    rw [hd.2 hleaf, hdata]

/-- The placeholder at position 1 of the tree for three items. -/
theorem placeholder_payload_witness :
    1 ≤ ["a", "b", "c"].length ∧ ["a", "b", "c"].length ≤ 2 ^ 29
      ∧ 1 < 2 * ["a", "b", "c"].length - 1
      ∧ ((buildTree ((List.range (2 * ["a", "b", "c"].length - 1)).map
            (fun i : Nat => (i : Int) + 1)) 0
          (2 * ["a", "b", "c"].length - 1)).subtreeAt 1).isNull = false
      ∧ ((buildTree ((List.range (2 * ["a", "b", "c"].length - 1)).map
            (fun i : Nat => (i : Int) + 1)) 0
          (2 * ["a", "b", "c"].length - 1)).subtreeAt 1).data = toString (1 + 1)
      ∧ ∃ t1, MerkleTree.buildTreeFromVector sampleDigest MerkleTree.new ["a", "b", "c"]
            = Except.ok t1
          ∧ (t1.root.subtreeAt 1).isNull = false
          ∧ ((t1.root.subtreeAt 1).isLeaf = false →
              (t1.root.subtreeAt 1).data = toString (1 + 1)) :=
  ⟨by decide, by decide, by decide,
    placeholder_payload sampleDigest MerkleTree.new ["a", "b", "c"] (by decide) (by decide) 1
      (by decide)⟩

/-! ## Lists of `2 ^ k` items -/

theorem buildTree_perfect (indices : List Int) (h : Nat) :
    ∀ j i : Nat, 2 ^ j ≤ i + 1 → i + 1 < 2 ^ (j + 1) →
      Node.perfect h (buildTree indices i (2 ^ (j + h + 1) - 1)) := by
  induction h with
  | zero =>
    intro j i h1 h2
    have e : 2 ^ (j + 1) = 2 * 2 ^ j := by rw [pow_succ]; omega
    simp only [Nat.add_zero]
    rw [buildTree_lt _ _ _ (by omega), buildTree_ge _ (2 * i + 1) _ (by omega),
      buildTree_ge _ (2 * i + 2) _ (by omega)]
    exact ⟨rfl, rfl⟩
  | succ h ih =>
    intro j i h1 h2
    have e : 2 ^ (j + 1) = 2 * 2 ^ j := by rw [pow_succ]; omega
    have e2 : 2 ^ (j + 1 + 1) = 2 * 2 ^ (j + 1) := by rw [pow_succ]; omega
    have hexp : j + (h + 1) + 1 = (j + 1) + h + 1 := by omega
    have hmono : 2 ^ (j + 1) ≤ 2 ^ (j + 1 + h + 1) :=
      Nat.pow_le_pow_right (by decide) (by omega)
    rw [hexp, buildTree_lt _ _ _ (by omega)]
    exact ⟨ih (j + 1) (2 * i + 1) (by omega) (by omega),
      ih (j + 1) (2 * i + 2) (by omega) (by omega)⟩

theorem Node.perfect_of_sameShape (k : Nat) :
    ∀ a b : Node, Node.perfect k a → Node.sameShape a b → Node.perfect k b := by
  induction k with
  | zero =>
    intro a b hp hs
    cases a with
    | null => simp [Node.perfect] at hp
    | mk d l r =>
      cases b with
      | null => simp [Node.sameShape] at hs
      | mk d1 l1 r1 =>
        obtain ⟨hl, hr⟩ := hp
        subst hl; subst hr
        have h1 := Node.sameShape_isNull hs.1
        have h2 := Node.sameShape_isNull hs.2
        exact ⟨Node.eq_null_of_isNull l1 (by rw [← h1]; rfl),
          Node.eq_null_of_isNull r1 (by rw [← h2]; rfl)⟩
  | succ k ih =>
    intro a b hp hs
    cases a with
    | null => simp [Node.perfect] at hp
    | mk d l r =>
      cases b with
      | null => simp [Node.sameShape] at hs
      | mk d1 l1 r1 => exact ⟨ih l l1 hp.1 hs.1, ih r r1 hp.2 hs.2⟩

theorem Node.perfect_isNull (k : Nat) (n : Node) (hp : Node.perfect k n) :
    n.isNull = false := by
  cases n with
  | null => cases k <;> simp [Node.perfect] at hp
  | mk d l r => rfl

theorem Node.perfect_succ_isLeaf (k : Nat) (d : String) (l r : Node)
    (hp : Node.perfect (k + 1) (Node.mk d l r)) : (Node.mk d l r).isLeaf = false := by
  simp [Node.isLeaf, Node.left, Node.right, Node.perfect_isNull k l hp.1]

theorem Node.perfect_leafData_length (k : Nat) :
    ∀ n : Node, Node.perfect k n → n.inorderLeafData.length = 2 ^ k := by
  induction k with
  | zero =>
    intro n hp
    cases n with
    | null => simp [Node.perfect] at hp
    | mk d l r =>
      obtain ⟨hl, hr⟩ := hp
      subst hl; subst hr
      simp [Node.inorderLeafData, Node.isLeaf, Node.left, Node.right, Node.isNull]
  | succ k ih =>
    intro n hp
    cases n with
    | null => simp [Node.perfect] at hp
    | mk d l r =>
      have hleaf := Node.perfect_succ_isLeaf k d l r hp
      simp only [Node.inorderLeafData, hleaf, Bool.false_eq_true, if_false, List.append_nil,
        List.length_append, ih l hp.1, ih r hp.2]
      rw [pow_succ]; omega

theorem Node.perfect_leafDepths (k : Nat) :
    ∀ (n : Node) (depth : Nat), Node.perfect k n →
      n.leafDepths depth = List.replicate (2 ^ k) (depth + k) := by
  induction k with
  | zero =>
    intro n depth hp
    cases n with
    | null => simp [Node.perfect] at hp
    | mk d l r =>
      obtain ⟨hl, hr⟩ := hp
      subst hl; subst hr
      simp [Node.leafDepths, Node.isLeaf, Node.left, Node.right, Node.isNull]
  | succ k ih =>
    intro n depth hp
    cases n with
    | null => simp [Node.perfect] at hp
    | mk d l r =>
      have hleaf := Node.perfect_succ_isLeaf k d l r hp
      simp only [Node.leafDepths, hleaf, Bool.false_eq_true, if_false, ih l _ hp.1,
        ih r _ hp.2]
      have e : 2 ^ (k + 1) = 2 ^ k + 2 ^ k := by rw [pow_succ]; omega
      have e1 : depth + 1 + k = depth + (k + 1) := by omega
      rw [e, e1, List.replicate_add]

theorem Node.perfect_referenceRoot (sha256 : String → Fin 32 → Fin 256) (k : Nat) :
    ∀ (n : Node) (xs : List String), Node.perfect k n →
      n.inorderLeafData = xs.map (calculateHash sha256) →
      Node.referenceRoot sha256 n = merkle sha256 k xs := by
  induction k with
  | zero =>
    intro n xs hp hd
    cases n with
    | null => simp [Node.perfect] at hp
    | mk d l r =>
      obtain ⟨hl, hr⟩ := hp
      subst hl; subst hr
      simp only [Node.inorderLeafData, Node.isLeaf, Node.left, Node.right, Node.isNull,
        Bool.and_self, if_true, List.nil_append, List.append_nil] at hd
      cases xs with
      | nil => simp at hd
      | cons x rest =>
        simp only [List.map_cons, List.cons.injEq] at hd
        simp only [Node.referenceRoot, Node.isLeaf, Node.left, Node.right, Node.isNull,
          Bool.and_self, if_true, merkle, List.headD_cons, hd.1]
  | succ k ih =>
    intro n xs hp hd
    cases n with
    | null => simp [Node.perfect] at hp
    | mk d l r =>
      have hleaf := Node.perfect_succ_isLeaf k d l r hp
      simp only [Node.inorderLeafData, hleaf, Bool.false_eq_true, if_false,
        List.append_nil] at hd
      have hlen := Node.perfect_leafData_length k l hp.1
      have h1 : l.inorderLeafData = (xs.take (2 ^ k)).map (calculateHash sha256) := by
        rw [List.map_take, ← hd, ← hlen, List.take_left]
      have h2 : r.inorderLeafData = (xs.drop (2 ^ k)).map (calculateHash sha256) := by
        rw [List.map_drop, ← hd, ← hlen, List.drop_left]
      simp only [Node.referenceRoot, hleaf, Bool.false_eq_true, if_false, merkle,
        ih l _ hp.1 h1, ih r _ hp.2 h2]

theorem merkle_equations (sha256 : String → Fin 32 → Fin 256) (x : String) (k : Nat)
    (xs ys : List String) (hx : xs.length = 2 ^ k) :
    merkle sha256 0 [x] = calculateHash sha256 x
      ∧ merkle sha256 (k + 1) (xs ++ ys)
          = calculateHash sha256 (merkle sha256 k xs ++ merkle sha256 k ys) := by
  constructor
  · rfl
  · simp only [merkle, ← hx, List.take_left, List.drop_left]

/-- C19 (power-of-two equivalence): for every `k` and every list `L` of
`2 ^ k` items the built tree is perfect, all its `2 ^ k` leaves being at depth
`k`, and the computed root is the textbook balanced Merkle root of the
reversed list, `merkle (reverse L)`.
Here `k ≤ 29`: the lists are of at most `2 ^ 29` items, the range in which
the `int` arithmetic of the program is exact. -/
theorem power_of_two_equivalence (sha256 : String → Fin 32 → Fin 256) (t : MerkleTree)
    (k : Nat) (hk : k ≤ 29) (L : List String) (hlen : L.length = 2 ^ k) :
    ∃ t1 t2, MerkleTree.buildTreeFromVector sha256 t L = Except.ok t1
      ∧ Node.perfect k t1.root
      ∧ t1.root.leafDepths 0 = List.replicate (2 ^ k) k
      ∧ MerkleTree.calculateMerkleRoot sha256 t1 = Except.ok t2
      ∧ t2.getMerkleRoot = merkle sha256 k L.reverse
      ∧ rootDigest sha256 L = Except.ok (merkle sha256 k L.reverse) := by
  have hpos : 0 < 2 ^ k := Nat.two_pow_pos k
  have hL : L ≠ [] := List.length_pos.mp (by omega)
  obtain ⟨n1, hb, _, hs, hd, hn, hf, _, _⟩ := buildTreeFromVector_spec sha256 t L hL
  obtain ⟨n2, _, hc2, _, _, _, href⟩ :=
    calculateMerkleRoot_spec sha256 { t with root := n1 } hn hf
  have hM : 2 * L.length - 1 = 2 ^ (0 + k + 1) - 1 := by
    have e : 2 ^ (0 + k + 1) = 2 * 2 ^ k := by rw [Nat.zero_add, pow_succ]; omega
    omega
  have hp0 := buildTree_perfect
    ((List.range (2 * L.length - 1)).map (fun i : Nat => (i : Int) + 1)) k 0 0
    (by decide) (by decide)
  rw [← hM] at hp0
  have hp : Node.perfect k n1 := Node.perfect_of_sameShape k _ _ hp0 hs
  have hroot : Node.referenceRoot sha256 n1 = merkle sha256 k L.reverse :=
    Node.perfect_referenceRoot sha256 k n1 L.reverse hp (by rw [hd, List.map_reverse])
  refine ⟨_, _, hb, hp, ?_, hc2, ?_, ?_⟩
  · have h := Node.perfect_leafDepths k n1 0 hp
    simpa using h
  · show n2.data = _
    rw [href]; exact hroot
  · have hbn := (buildTreeFromVector_root sha256 t MerkleTree.new L _ hb).2
    obtain ⟨m2, _, hcn, _, _, _, hrefn⟩ :=
      calculateMerkleRoot_spec sha256 { MerkleTree.new with root := n1 } hn hf
    simp only [rootDigest, hbn, hcn, MerkleTree.getMerkleRoot, hrefn, hroot]

/-- The equivalence at `k = 1` and two items. -/
theorem power_of_two_equivalence_witness :
    1 ≤ 29 ∧ ["a", "b"].length = 2 ^ 1
      ∧ ∃ t1 t2, MerkleTree.buildTreeFromVector sampleDigest MerkleTree.new ["a", "b"]
            = Except.ok t1
          ∧ Node.perfect 1 t1.root
          ∧ t1.root.leafDepths 0 = List.replicate (2 ^ 1) 1
          ∧ MerkleTree.calculateMerkleRoot sampleDigest t1 = Except.ok t2
          ∧ t2.getMerkleRoot = merkle sampleDigest 1 ["a", "b"].reverse
          ∧ rootDigest sampleDigest ["a", "b"]
              = Except.ok (merkle sampleDigest 1 ["a", "b"].reverse) :=
  ⟨by decide, by decide,
    power_of_two_equivalence sampleDigest MerkleTree.new 1 (by decide) ["a", "b"] (by decide)⟩

end MerkleWorkshop
